import Mathlib

/-!
Verification development for the "alexson" lossless JSON-superset parser
(files `lexer.py`, `parser.py`, `syntax_tree.py`).

The Python sources are shallowly embedded: text is `List Char`, the stateful
`Lexer`/`AlexsonParser` classes become pure functions threading the remaining
input and the `(row, col)` counters explicitly, exceptions become `Except`
values, and the syntax-tree class hierarchy becomes a closed inductive type.
Python's `float` values attached to `Number` nodes are modelled exactly as
decimal rationals (a mantissa/scale pair).  Python's Unicode `isalpha`
/`isdigit` are modelled by the ASCII `Char.isAlpha`/`Char.isDigit`.

Two behaviours of the Python runtime are modelled as explicit error values:
* `AlexErr.assertFail` — the `assert self.current() is None` at the end of
  `AlexsonParser.parse` failing (an `AssertionError` carrying no position);
* `AlexErr.noneType` — evaluating `self.current().type` when `current()` is
  `None` (an `AttributeError`, also carrying no position).
-/

namespace Alexson

/-- `lexer.TokenType` (the fixed token taxonomy). -/
inductive TokenType where
  | STRING
  | NUMBER
  | BOOLEAN
  | NULL
  | VARIABLE
  | LBRACE
  | RBRACE
  | LBRACKET
  | RBRACKET
  | COLON
  | COMMA
  | COMMENT
  | NEWLINES
  | SPACES
  | TABS
deriving DecidableEq

/-- `lexer.Token`: a token type together with its exact matched text
(for strings, the unescaped content). -/
structure Tok where
  type : TokenType
  value : List Char
deriving DecidableEq

/-- `lexer.NON_JSON_TYPES = {COMMENT, NEWLINES, SPACES, TABS}`. -/
def isNonJsonType : TokenType → Bool
  | .COMMENT => true
  | .NEWLINES => true
  | .SPACES => true
  | .TABS => true
  | _ => false

/-- Errors surfaced by scanning, parsing or the Python runtime.
`lexErr` is `AlexsonLexicalError(msg, row, col)`; `parseExc` is
`AlexsonParserException(msg, row, col)` (row/col are `Int` because
`AlexsonParser.get_token_pos(None)` returns `(-1, -1)`); `assertFail` and
`noneType` model the uncaught `AssertionError`/`AttributeError` described in
the file docstring.  `fuelOut` is an artifact of the fuel-based embedding and
is unreachable for the fuel bounds used below. -/
inductive AlexErr where
  | lexErr (msg : String) (row col : Nat)
  | parseExc (msg : String) (row col : Int)
  | assertFail
  | noneType
  | fuelOut
deriving DecidableEq

/-- `config.Config` — Modelled from the spec: the repository's `config.py`
is not under `src/`; per the spec (§6) the configuration carries exactly
`allow_trailing_comma : bool` and `allow_comments : bool`. -/
structure Config where
  allow_trailing_comma : Bool
  allow_comments : Bool

/-! ## Lexer (`lexer.Lexer`) -/

/-- One `Lexer._next` update of `(row, col)`: after moving, the *new* current
character (`next?`) is inspected; a newline resets the column. -/
def rcStep (row col : Nat) (next? : Option Char) : Nat × Nat :=
  if next? = some '\n' then (row + 1, 0) else (row, col + 1)

/-- `(row, col)` after consuming `consumed` while `rest` remains afterwards
(repeated `Lexer._next`). -/
def rcConsume (row col : Nat) : (consumed : List Char) → (rest : List Char) → Nat × Nat
  | [], _ => (row, col)
  | _ :: cs, rest =>
    let rc := rcStep row col ((cs ++ rest).head?)
    rcConsume rc.1 rc.2 cs rest

/-- The body scan of `Lexer.string` (after the opening quote): returns the
stored text (backslashes dropped), the raw consumed body, and the remaining
input starting at the unescaped terminating quote (or `[]` at end of input).
A backslash sets the `escaped` flag and is itself dropped from the stored
text; any escaped character (including a second backslash or a quote) is
stored verbatim. -/
def scanStringBody : List Char → Bool → (List Char × List Char × List Char)
  | [], _ => ([], [], [])
  | c :: cs, escaped =>
    if c = '"' ∧ escaped = false then ([], [], c :: cs)
    else if c = '\\' then
      let r := scanStringBody cs true
      (r.1, c :: r.2.1, r.2.2)
    else
      let r := scanStringBody cs false
      (c :: r.1, c :: r.2.1, r.2.2)

/-- `Lexer.variable` continuation characters: alphanumeric or `_`. -/
def isVarChar (c : Char) : Bool := c.isAlpha || c.isDigit || c = '_'

/-- `Lexer.number` characters: digits or `.`. -/
def isNumChar (c : Char) : Bool := c.isDigit || c = '.'

/-- Build a successful `next_token` result: the token, its recorded position
(the `(row, col)` at the moment the token was finalized, as stored in
`token_id_position_map`), and the remaining input. -/
def mkTok (ty : TokenType) (val consumed rest : List Char) (row col : Nat) :
    Except AlexErr (Tok × Nat × Nat × List Char) :=
  let rc := rcConsume row col consumed rest
  .ok (⟨ty, val⟩, rc.1, rc.2, rest)

/-- `Lexer.next_token`, called with a non-empty input `c :: cs` (current
character `c`).  The branches appear in the source's priority order. -/
def nextToken (c : Char) (cs : List Char) (row col : Nat) :
    Except AlexErr (Tok × Nat × Nat × List Char) :=
  if c = 't' ∧ cs.take 3 = ['r', 'u', 'e'] then
    mkTok .BOOLEAN ['t', 'r', 'u', 'e'] ['t', 'r', 'u', 'e'] (cs.drop 3) row col
  else if c = 'f' ∧ cs.take 4 = ['a', 'l', 's', 'e'] then
    mkTok .BOOLEAN ['f', 'a', 'l', 's', 'e'] ['f', 'a', 'l', 's', 'e'] (cs.drop 4) row col
  else if c = 'n' ∧ cs.take 3 = ['u', 'l', 'l'] then
    mkTok .NULL ['n', 'u', 'l', 'l'] ['n', 'u', 'l', 'l'] (cs.drop 3) row col
  else if c = '"' then
    -- Lexer.string: skip the opening quote, scan the body, skip the closing
    -- quote.  If the input ends before the closing quote, the final
    -- `self.next()` moves past the buffer and raises `'End of input'`.
    let r := scanStringBody cs false
    match r.2.2 with
    | _ :: rest2 => mkTok .STRING r.1 ('"' :: (r.2.1 ++ ['"'])) rest2 row col
    | [] =>
      let rc := rcConsume row col ('"' :: r.2.1) []
      .error (.lexErr "End of input" rc.1 rc.2)
  else if c = '#' then
    let val := (c :: cs).takeWhile (fun x => x ≠ '\n')
    mkTok .COMMENT val val ((c :: cs).dropWhile (fun x => x ≠ '\n')) row col
  else if c = '\n' then
    let val := (c :: cs).takeWhile (fun x => x = '\n')
    mkTok .NEWLINES val val ((c :: cs).dropWhile (fun x => x = '\n')) row col
  else if c = '\t' then
    let val := (c :: cs).takeWhile (fun x => x = '\t')
    mkTok .TABS val val ((c :: cs).dropWhile (fun x => x = '\t')) row col
  else if c = ' ' then
    let val := (c :: cs).takeWhile (fun x => x = ' ')
    mkTok .SPACES val val ((c :: cs).dropWhile (fun x => x = ' ')) row col
  else if c = '\x7b' then mkTok .LBRACE [c] [c] cs row col
  else if c = '\x7d' then mkTok .RBRACE [c] [c] cs row col
  else if c = '[' then mkTok .LBRACKET [c] [c] cs row col
  else if c = ']' then mkTok .RBRACKET [c] [c] cs row col
  else if c = ':' then mkTok .COLON [c] [c] cs row col
  else if c = ',' then mkTok .COMMA [c] [c] cs row col
  else if c.isAlpha || c = '_' then
    mkTok .VARIABLE (c :: cs.takeWhile isVarChar) (c :: cs.takeWhile isVarChar)
      (cs.dropWhile isVarChar) row col
  else if c.isDigit then
    let val := (c :: cs).takeWhile isNumChar
    mkTok .NUMBER val val ((c :: cs).dropWhile isNumChar) row col
  else
    .error (.lexErr ("Unexpected character " ++ c.toString) row col)

/-- A token paired with its recorded position (`token_id_position_map`). -/
abbrev TokP := Tok × Nat × Nat

/-- `Lexer.tokenize`, fuel-based (one unit of fuel per produced token; each
token consumes at least one character, so `length + 1` units suffice). -/
def tokenizeAux : Nat → List Char → Nat → Nat → Except AlexErr (List TokP)
  | _, [], _, _ => .ok []
  | 0, _ :: _, _, _ => .error .fuelOut
  | fuel + 1, c :: cs, row, col =>
    match nextToken c cs row col with
    | .error e => .error e
    | .ok (t, r', c', rest) =>
      match tokenizeAux fuel rest r' c' with
      | .error e => .error e
      | .ok ts => .ok ((t, r', c') :: ts)

/-- `Lexer(text).tokenize()` — the lexer starts at `row = 1`, `col = 0`. -/
def tokenize (s : List Char) : Except AlexErr (List TokP) :=
  tokenizeAux (s.length + 1) s 1 0

/-! ## Numbers (`syntax_tree.Number`)

`Number.__init__` stores `float(value)` alongside the original text.  The
numeral texts produced by the lexer are unsigned decimal digit/dot strings,
whose mathematical values are decimal rationals; we model the float exactly
as a mantissa/scale pair (value = `mant / 10 ^ scale`). -/

/-- The exact decimal value of a numeral: `mant / 10 ^ scale`. -/
structure DecVal where
  mant : Nat
  scale : Nat
deriving DecidableEq

/-- Split a numeral at its first `.`, if any. -/
def splitAtDot : List Char → (List Char × Option (List Char))
  | [] => ([], none)
  | c :: rest =>
    if c = '.' then ([], some rest)
    else
      let r := splitAtDot rest
      (c :: r.1, r.2)

/-- Value of a digit string. -/
def digitsToNat (l : List Char) : Nat := l.foldl (fun a c => a * 10 + (c.toNat - 48)) 0

/-- Whether Python's `float(text)` succeeds, for the digit/dot texts the
lexer produces: at most one dot, at least one digit, nothing else. -/
def pyFloatValid (l : List Char) : Bool :=
  let s := splitAtDot l
  match s.2 with
  | none => !s.1.isEmpty && s.1.all Char.isDigit
  | some b => (s.1 ++ b).all Char.isDigit && (!s.1.isEmpty || !b.isEmpty) && !b.contains '.'

/-- The decimal value of a valid numeral text (`float(text)`, exactly). -/
def decValOfText (l : List Char) : DecVal :=
  let s := splitAtDot l
  match s.2 with
  | none => ⟨digitsToNat s.1, 0⟩
  | some b => ⟨digitsToNat (s.1 ++ b), b.length⟩

/-- The rational a `DecVal` denotes. -/
def DecVal.toRat (v : DecVal) : ℚ := (v.mant : ℚ) / 10 ^ v.scale

/-- `|a - b|` on `Nat`. -/
def natAbsDiff (a b : Nat) : Nat := max a b - min a b

/-- `Number.__eq__`'s tolerance test `abs(x - y) < 1e-6`, computed exactly on
decimal values by cross-multiplication (see `numClose_iff_toRat`). -/
def numClose (a b : DecVal) : Bool :=
  decide (natAbsDiff (a.mant * 10 ^ b.scale) (b.mant * 10 ^ a.scale) * 1000000
    < 10 ^ (a.scale + b.scale))

/-! ## The CST node model (`syntax_tree.py`) -/

/-- The closed variant type of `syntax_tree.AlexsonNode`'s class hierarchy.
`root`/`obj`/`arr` are the `BlockNode`s `Root`/`Object`/`Array` with their
ordered `children`; `obj` carries the key index `dict` (key text mapped to
the key `String` node and the value node, in insertion order) and `arr` the
item index `items`.  `str`/`num`/`varRef`/`boolVal`/`nullVal` are the
literals `String`/`Number`/`Variable`/`Boolean`/`Null`; the remaining
constructors are the formatting and structural `NonEditable` classes. -/
inductive Node where
  | root (children : List Node)
  | obj (children : List Node) (dict : List (List Char × Node × Node))
  | arr (children : List Node) (items : List Node)
  | str (value : List Char)
  | num (value : DecVal) (originalValue : List Char)
  | varRef (name : List Char)
  | boolVal (value : Bool)
  | nullVal
  | comment (text : List Char)
  | whitespace
  | newline
  | tab
  | colon
  | comma
  | lbrace
  | rbrace
  | lbracket
  | rbracket

/-- `String.to_alexson`'s escaping: `value.replace('"', '\\"')`. -/
def escapeQuotes : List Char → List Char
  | [] => []
  | c :: cs => if c = '"' then '\\' :: '"' :: escapeQuotes cs else c :: escapeQuotes cs

mutual

/-- `AlexsonNode.to_alexson`: serialization.  Containers concatenate their
children (`BlockNode.to_alexson`); `String` re-escapes only the quote;
`Number` emits its stored original text verbatim. -/
def toAlexson : Node → List Char
  | .root cs => listToAlexson cs
  | .obj cs _ => listToAlexson cs
  | .arr cs _ => listToAlexson cs
  | .str v => '"' :: (escapeQuotes v ++ ['"'])
  | .num _ o => o
  | .varRef n => n
  | .boolVal b => if b then ['t', 'r', 'u', 'e'] else ['f', 'a', 'l', 's', 'e']
  | .nullVal => ['n', 'u', 'l', 'l']
  | .comment t => t
  | .whitespace => [' ']
  | .newline => ['\n']
  | .tab => ['\t']
  | .colon => [':']
  | .comma => [',']
  | .lbrace => ['\x7b']
  | .rbrace => ['\x7d']
  | .lbracket => ['[']
  | .rbracket => [']']

/-- Concatenated serialization of a child list (`BlockNode.to_alexson`). -/
def listToAlexson : List Node → List Char
  | [] => []
  | n :: ns => toAlexson n ++ listToAlexson ns

end

/-- `Object.dict` lookup: the `(key-node, value-node)` pair for a key. -/
def dictLookup : List (List Char × Node × Node) → List Char → Option (Node × Node)
  | [], _ => none
  | (k, kn, v) :: ds, key => if k = key then some (kn, v) else dictLookup ds key

mutual

/-- Python `==` on nodes: `BlockNode.__eq__` compares variant and children
element-wise (`Object` additionally its key index as a mapping, `Array` its
item index); `Literal.__eq__` compares variant and value, with `Number`'s
`1e-6` tolerance; `NonEditable.__eq__` compares only the variant
(`Comment` additionally its text). -/
def nodeEq : Node → Node → Bool
  | .root c1, .root c2 => nodesEq c1 c2
  | .obj c1 d1, .obj c2 d2 => nodesEq c1 c2 && (d1.length == d2.length) && dictSub d1 d2
  | .arr c1 i1, .arr c2 i2 => nodesEq c1 c2 && nodesEq i1 i2
  | .str v1, .str v2 => v1 == v2
  | .num v1 _, .num v2 _ => numClose v1 v2
  | .varRef n1, .varRef n2 => n1 == n2
  | .boolVal b1, .boolVal b2 => b1 == b2
  | .nullVal, .nullVal => true
  | .comment t1, .comment t2 => t1 == t2
  | .whitespace, .whitespace => true
  | .newline, .newline => true
  | .tab, .tab => true
  | .colon, .colon => true
  | .comma, .comma => true
  | .lbrace, .lbrace => true
  | .rbrace, .rbrace => true
  | .lbracket, .lbracket => true
  | .rbracket, .rbracket => true
  | _, _ => false

/-- Element-wise `==` on node lists. -/
def nodesEq : List Node → List Node → Bool
  | [], [] => true
  | a :: as_, b :: bs => nodeEq a b && nodesEq as_ bs
  | _, _ => false

/-- Every entry of the first key index maps, under the second, to an equal
`(key-node, value-node)` pair; with equal lengths and unique keys this is
Python dict `==` (mapping comparison, order-insensitive). -/
def dictSub : List (List Char × Node × Node) → List (List Char × Node × Node) → Bool
  | [], _ => true
  | (k, kn, v) :: ds, d2 =>
    (match dictLookup d2 k with
     | some p => nodeEq kn p.1 && nodeEq v p.2
     | none => false) && dictSub ds d2

end

/-! ## Indexed access and mutation (`Root`, `Object`, `Array`) -/

/-- Errors raised by indexed access/mutation: `notImplemented` is
`Object.__setitem__`'s refusal to add a new key; `indexError`/`keyError` are
Python's out-of-range/missing-key errors; `typeErr` covers indexing the
wrong container kind (or a `Root` without a primary container). -/
inductive MutErr where
  | notImplemented
  | indexError
  | keyError
  | typeErr
deriving DecidableEq

/-- `isinstance(child, BlockNode)`. -/
def isBlock : Node → Bool
  | .root _ => true
  | .obj _ _ => true
  | .arr _ _ => true
  | _ => false

/-- `Root.get_primary_obj`: the first `BlockNode` among the children. -/
def getPrimaryObj : List Node → Option Node
  | [] => none
  | c :: cs => if isBlock c then some c else getPrimaryObj cs

/-- Replace the first `BlockNode` among the children (functional rendering of
in-place mutation of the primary container). -/
def replacePrimary : List Node → Node → List Node
  | [], _ => []
  | c :: cs, v => if isBlock c then v :: cs else c :: replacePrimary cs v

/-- `self.dict[key] = (self.dict[key][0], value)`: update the value node for
an existing key, keeping the key node and the insertion order. -/
def dictUpdate : List (List Char × Node × Node) → List Char → Node →
    List (List Char × Node × Node)
  | [], _, _ => []
  | (k, kn, v) :: ds, key, newV =>
    if k = key then (k, kn, newV) :: ds else (k, kn, v) :: dictUpdate ds key newV

/-- `self.children[self.children.index(old)] = newV`: Python's `list.index`
locates the first element `==`-equal to `old` (not the identical instance). -/
def listIndexReplace : List Node → Node → Node → List Node
  | [], _, _ => []
  | c :: cs, old, newV =>
    if nodeEq c old then newV :: cs else c :: listIndexReplace cs old newV

/-- `Object.__setitem__`: replace the value for an existing key in both the
children sequence and the key index; a new key raises `NotImplementedError`. -/
def objSetItem (children : List Node) (dict : List (List Char × Node × Node))
    (key : List Char) (v : Node) :
    Except MutErr (List Node × List (List Char × Node × Node)) :=
  match dictLookup dict key with
  | some p => .ok (listIndexReplace children p.2 v, dictUpdate dict key v)
  | none => .error .notImplemented

/-- Python list read with negative-index support (`IndexError` = `none`). -/
def pyListGet (l : List Node) (i : Int) : Option Node :=
  if 0 ≤ i ∧ i < l.length then l.get? i.toNat
  else if -(l.length : Int) ≤ i ∧ i < 0 then l.get? (l.length - (-i).toNat)
  else none

/-- Python list element assignment with negative-index support. -/
def pyListSet (l : List Node) (i : Int) (v : Node) : Option (List Node) :=
  if 0 ≤ i ∧ i < l.length then some (l.set i.toNat v)
  else if -(l.length : Int) ≤ i ∧ i < 0 then some (l.set (l.length - (-i).toNat) v)
  else none

/-- `Root.__setitem__` with a string key: delegates to the primary
container's `Object.__setitem__`. -/
def rootSetKey (r : Node) (key : List Char) (v : Node) : Except MutErr Node :=
  match r with
  | .root cs =>
    match getPrimaryObj cs with
    | some (.obj ch d) =>
      match objSetItem ch d key v with
      | .ok p => .ok (.root (replacePrimary cs (.obj p.1 p.2)))
      | .error e => .error e
    | _ => .error .typeErr
  | _ => .error .typeErr

/-- `Root.__getitem__` with a string key (`Object.__getitem__`:
`self.dict[item][1]`). -/
def rootGetKey (r : Node) (key : List Char) : Except MutErr Node :=
  match r with
  | .root cs =>
    match getPrimaryObj cs with
    | some (.obj _ d) =>
      match dictLookup d key with
      | some p => .ok p.2
      | none => .error .keyError
    | _ => .error .typeErr
  | _ => .error .typeErr

/-- `Root.__setitem__` with an integer key (`Array.__setitem__`:
`self.items[key] = value` — the item index only). -/
def rootSetIdx (r : Node) (i : Int) (v : Node) : Except MutErr Node :=
  match r with
  | .root cs =>
    match getPrimaryObj cs with
    | some (.arr ch items) =>
      match pyListSet items i v with
      | some items2 => .ok (.root (replacePrimary cs (.arr ch items2)))
      | none => .error .indexError
    | _ => .error .typeErr
  | _ => .error .typeErr

/-- `Root.__getitem__` with an integer key (`Array.__getitem__`:
`self.items[item]`). -/
def rootGetIdx (r : Node) (i : Int) : Except MutErr Node :=
  match r with
  | .root cs =>
    match getPrimaryObj cs with
    | some (.arr _ items) =>
      match pyListGet items i with
      | some v => .ok v
      | none => .error .indexError
    | _ => .error .typeErr
  | _ => .error .typeErr

/-! ## Parser (`parser.AlexsonParser`)

The parser functions thread the remaining token stream (`self.tokens` from
`self._token_index` on; `self.current()` is its head).  The recursive-descent
loops are given explicit fuel; one unit is spent per mutual call, so any
bound above three per token is ample (`parseAlexson` uses
`3 * length + 10`), and `fuelOut` is unreachable there. -/

/-- `Token.__str__` (used in error messages). -/
def tokTypeName : TokenType → String
  | .STRING => "STRING"
  | .NUMBER => "NUMBER"
  | .BOOLEAN => "BOOLEAN"
  | .NULL => "NULL"
  | .VARIABLE => "VARIABLE"
  | .LBRACE => "LBRACE"
  | .RBRACE => "RBRACE"
  | .LBRACKET => "LBRACKET"
  | .RBRACKET => "RBRACKET"
  | .COLON => "COLON"
  | .COMMA => "COMMA"
  | .COMMENT => "COMMENT"
  | .NEWLINES => "NEWLINES"
  | .SPACES => "SPACES"
  | .TABS => "TABS"

/-- `Token.__str__`: structural tokens print their kind name, space/tab runs
`KIND*len`, newline runs `KIND` followed by the raw newlines, and all other
kinds `KIND(value)`. -/
def tokStr (t : Tok) : String :=
  match t.type with
  | .COLON | .LBRACE | .RBRACE | .LBRACKET | .RBRACKET | .COMMA => tokTypeName t.type
  | .SPACES | .TABS => tokTypeName t.type ++ "*" ++ toString t.value.length
  | .NEWLINES => tokTypeName t.type ++ String.mk t.value
  | _ => tokTypeName t.type ++ "(" ++ String.mk t.value ++ ")"

/-- `raise AlexsonParserException(msg, *self.get_token_pos(tok))`:
`get_token_pos` returns `(-1, -1)` for `None` and the recorded position
otherwise. -/
def parseErrAt (msg : String) (tp? : Option TokP) : AlexErr :=
  match tp? with
  | none => .parseExc msg (-1) (-1)
  | some (_, r, c) => .parseExc msg r c

/-- `AlexsonParser._parse_non_json`'s per-token expansion: whitespace runs
become one formatting node per character; a comment becomes one `Comment`
node if `allow_comments` is set and is dropped (but still consumed)
otherwise. -/
def expandNonJson (cfg : Config) (t : Tok) : List Node :=
  match t.type with
  | .NEWLINES => List.replicate t.value.length .newline
  | .SPACES => List.replicate t.value.length .whitespace
  | .TABS => List.replicate t.value.length .tab
  | .COMMENT => if cfg.allow_comments then [.comment t.value] else []
  | _ => []

/-- The `while self.current().type in NON_JSON_TYPES` loop of
`_parse_non_json`: note that after consuming a formatting token the loop
condition evaluates `self.current().type` again, so running off the end of
the token stream is an `AttributeError` (`noneType`). -/
def parseNonJsonCore (cfg : Config) : List TokP → Except AlexErr (List Node × List TokP)
  | [] => .error .noneType
  | (t, p) :: rest =>
    if isNonJsonType t.type then
      match parseNonJsonCore cfg rest with
      | .ok r => .ok (expandNonJson cfg t ++ r.1, r.2)
      | .error e => .error e
    else .ok ([], (t, p) :: rest)

/-- `AlexsonParser._parse_non_json`: returns `[]` if `current()` is already
`None`, otherwise runs the consumption loop. -/
def parseNonJson (cfg : Config) : List TokP → Except AlexErr (List Node × List TokP)
  | [] => .ok ([], [])
  | ts => parseNonJsonCore cfg ts

mutual

/-- `AlexsonParser._parse_obj` up to consuming the opening `{`. -/
def parseObj (cfg : Config) : Nat → List TokP → Except AlexErr (Node × List TokP)
  | 0, _ => .error .fuelOut
  | _ + 1, [] => .error .noneType
  | fuel + 1, (t, p) :: rest =>
    if t.type ≠ TokenType.LBRACE then
      .error (parseErrAt ("Unexpected token " ++ tokStr t ++ ", expecting \"\x7b\" here.")
        (some (t, p)))
    else parseObjLoop cfg fuel [.lbrace] [] rest

/-- The `while self.current().type != TokenType.RBRACE` member loop of
`_parse_obj`, accumulating the children and the key index. -/
def parseObjLoop (cfg : Config) :
    Nat → List Node → List (List Char × Node × Node) → List TokP →
    Except AlexErr (Node × List TokP)
  | 0, _, _, _ => .error .fuelOut
  | _ + 1, _, _, [] => .error .noneType
  | fuel + 1, children, dict, (t, p) :: rest =>
    if t.type = TokenType.RBRACE then
      .ok (.obj (children ++ [.rbrace]) dict, rest)
    else
      match parseNonJson cfg ((t, p) :: rest) with
      | .error e => .error e
      | .ok (ws1, ts1) =>
        match ts1 with
        | [] => .error .noneType
        | (k, kp) :: ts2 =>
          if k.type ≠ TokenType.STRING then
            .error (parseErrAt ("Unexpected token " ++ tokStr k) (some (k, kp)))
          else
            match parseNonJson cfg ts2 with
            | .error e => .error e
            | .ok (ws2, ts3) =>
              match ts3 with
              | [] => .error .noneType
              | (ct, cp) :: ts4 =>
                if ct.type ≠ TokenType.COLON then
                  .error (parseErrAt ("Unexpected token " ++ tokStr ct) (some (ct, cp)))
                else
                  match parseNonJson cfg ts4 with
                  | .error e => .error e
                  | .ok (ws3, ts5) =>
                    match parseValue cfg fuel ts5 with
                    | .error e => .error e
                    | .ok (v, ts6) =>
                      if (dictLookup dict k.value).isSome then
                        .error (parseErrAt ("Duplicate key " ++ String.mk k.value) ts6.head?)
                      else
                        match parseNonJson cfg ts6 with
                        | .error e => .error e
                        | .ok (ws4, ts7) =>
                          match ts7 with
                          | [] => .error .noneType
                          | (cm, cmp) :: ts8 =>
                            if cm.type = TokenType.COMMA then
                              match parseNonJson cfg ts8 with
                              | .error e => .error e
                              | .ok (ws5, ts9) =>
                                if cfg.allow_trailing_comma then
                                  match ts9 with
                                  | [] => .error .noneType
                                  | (x, xp) :: ts10 =>
                                    if x.type = TokenType.RBRACE then
                                      .ok (.obj (children ++ ws1 ++ [.str k.value] ++ ws2 ++
                                          [.colon] ++ ws3 ++ [v] ++ ws4 ++ [.comma] ++ ws5 ++
                                          [.rbrace])
                                        (dict ++ [(k.value, .str k.value, v)]), ts10)
                                    else
                                      parseObjLoop cfg fuel
                                        (children ++ ws1 ++ [.str k.value] ++ ws2 ++ [.colon] ++
                                          ws3 ++ [v] ++ ws4 ++ [.comma] ++ ws5)
                                        (dict ++ [(k.value, .str k.value, v)]) ((x, xp) :: ts10)
                                else
                                  parseObjLoop cfg fuel
                                    (children ++ ws1 ++ [.str k.value] ++ ws2 ++ [.colon] ++
                                      ws3 ++ [v] ++ ws4 ++ [.comma] ++ ws5)
                                    (dict ++ [(k.value, .str k.value, v)]) ts9
                            else if cm.type ≠ TokenType.RBRACE then
                              .error (parseErrAt ("Unexpected token " ++ tokStr cm)
                                (some (cm, cmp)))
                            else
                              -- no comma, `current()` is the RBRACE: the second
                              -- `_parse_non_json` is a no-op on it, the loop
                              -- condition (or the trailing-comma break) exits,
                              -- and the RBRACE is consumed
                              .ok (.obj (children ++ ws1 ++ [.str k.value] ++ ws2 ++ [.colon] ++
                                  ws3 ++ [v] ++ ws4 ++ [.rbrace])
                                (dict ++ [(k.value, .str k.value, v)]), ts8)

/-- `AlexsonParser._parse_array` up to consuming the opening `[` (the source
appends `LBracket` and advances without inspecting the token). -/
def parseArray (cfg : Config) : Nat → List TokP → Except AlexErr (Node × List TokP)
  | 0, _ => .error .fuelOut
  | fuel + 1, ts => parseArrLoop cfg fuel [.lbracket] [] (ts.drop 1)

/-- The `while self.current().type != TokenType.RBRACKET` item loop of
`_parse_array`, accumulating the children and the item index. -/
def parseArrLoop (cfg : Config) : Nat → List Node → List Node → List TokP →
    Except AlexErr (Node × List TokP)
  | 0, _, _, _ => .error .fuelOut
  | _ + 1, _, _, [] => .error .noneType
  | fuel + 1, children, items, (t, p) :: rest =>
    if t.type = TokenType.RBRACKET then
      .ok (.arr (children ++ [.rbracket]) items, rest)
    else
      match parseNonJson cfg ((t, p) :: rest) with
      | .error e => .error e
      | .ok (ws1, ts1) =>
        match parseValue cfg fuel ts1 with
        | .error e => .error e
        | .ok (v, ts2) =>
          match parseNonJson cfg ts2 with
          | .error e => .error e
          | .ok (ws2, ts3) =>
            match ts3 with
            | [] => .error .noneType
            | (cm, cmp) :: ts4 =>
              if cm.type = TokenType.COMMA then
                parseArrLoop cfg fuel (children ++ ws1 ++ [v] ++ ws2 ++ [.comma])
                  (items ++ [v]) ts4
              else if cm.type ≠ TokenType.RBRACKET then
                .error (parseErrAt
                  ("Unexpected token " ++ tokStr cm ++ ", expecting \",\" or \"]\" here.")
                  (some (cm, cmp)))
              else
                .ok (.arr (children ++ ws1 ++ [v] ++ ws2 ++ [.rbracket]) (items ++ [v]), ts4)

/-- `AlexsonParser.parse_value`: literals become leaf nodes (a `NUMBER`
token's text must pass `float`, a `BOOLEAN` token's text must be exactly
`true`/`false`); `{`/`[` recurse into the container parsers. -/
def parseValue (cfg : Config) : Nat → List TokP → Except AlexErr (Node × List TokP)
  | 0, _ => .error .fuelOut
  | _ + 1, [] => .error .noneType
  | fuel + 1, (t, p) :: rest =>
    match t.type with
    | .STRING => .ok (.str t.value, rest)
    | .NUMBER =>
      if pyFloatValid t.value then .ok (.num (decValOfText t.value) t.value, rest)
      else .error (parseErrAt ("Invalid number value " ++ String.mk t.value) (some (t, p)))
    | .NULL => .ok (.nullVal, rest)
    | .BOOLEAN =>
      if t.value = ['t', 'r', 'u', 'e'] then .ok (.boolVal true, rest)
      else if t.value = ['f', 'a', 'l', 's', 'e'] then .ok (.boolVal false, rest)
      else .error (parseErrAt ("Invalid boolean value " ++ String.mk t.value) (some (t, p)))
    | .VARIABLE => .ok (.varRef t.value, rest)
    | .LBRACE => parseObj cfg fuel ((t, p) :: rest)
    | .LBRACKET => parseArray cfg fuel ((t, p) :: rest)
    | _ => .error (parseErrAt ("Unexpected token " ++ tokStr t) (some (t, p)))

end

/-- `AlexsonParser.parse`: empty token stream yields an empty `Root`;
otherwise leading formatting, the root `{...}`/`[...]` container, trailing
formatting, and finally `assert self.current() is None`. -/
def parseRoot (cfg : Config) (fuel : Nat) (ts : List TokP) : Except AlexErr Node :=
  match ts with
  | [] => .ok (.root [])
  | _ :: _ =>
    match parseNonJson cfg ts with
    | .error e => .error e
    | .ok (ws1, ts1) =>
      match ts1 with
      | [] => .ok (.root ws1)
      | (t, p) :: _ =>
        if t.type = TokenType.LBRACE then
          match parseObj cfg fuel ts1 with
          | .error e => .error e
          | .ok (o, ts2) =>
            match parseNonJson cfg ts2 with
            | .error e => .error e
            | .ok (ws2, ts3) =>
              match ts3 with
              | [] => .ok (.root (ws1 ++ [o] ++ ws2))
              | _ :: _ => .error .assertFail
        else if t.type = TokenType.LBRACKET then
          match parseArray cfg fuel ts1 with
          | .error e => .error e
          | .ok (o, ts2) =>
            match parseNonJson cfg ts2 with
            | .error e => .error e
            | .ok (ws2, ts3) =>
              match ts3 with
              | [] => .ok (.root (ws1 ++ [o] ++ ws2))
              | _ :: _ => .error .assertFail
        else
          .error (parseErrAt
            ("Unexpected token " ++ tokStr t ++
              ", expecting Object or Array at the top level of the alexson string")
            (some (t, p)))

/-- `AlexsonParser(text, config).parse()`: tokenize (lexical errors are
raised in the constructor), then parse the token stream. -/
def parseAlexson (cfg : Config) (s : List Char) : Except AlexErr Node :=
  match tokenize s with
  | .error e => .error e
  | .ok ts => parseRoot cfg (3 * ts.length + 10) ts

/-- Whether a parse succeeds. -/
def parseOk (cfg : Config) (s : List Char) : Bool :=
  match parseAlexson cfg s with
  | .ok _ => true
  | .error _ => false

/-- `to_alexson` of a successful parse. -/
def serializeParsed (cfg : Config) (s : List Char) : Option (List Char) :=
  match parseAlexson cfg s with
  | .ok r => some (toAlexson r)
  | .error _ => none

/-- `syntax_tree.Number(text)` for a string argument: `float(text)` paired
with the original text. -/
def numberOfText (t : List Char) : Node := .num (decValOfText t) t

/-! ## Round-trip infrastructure -/

/-- Well-escaped text: every backslash is immediately followed by a
double-quote.  This is the proviso under which the scanner's
backslash-dropping is inverted exactly by `String.to_alexson`'s
re-escaping. -/
def goodBS : List Char → Bool
  | [] => true
  | [c] => !(c == '\\')
  | c :: c2 :: rest => (!(c == '\\') || (c2 == '"')) && goodBS (c2 :: rest)

/-- The source text a token re-serializes to once turned into tree nodes:
string tokens regain their quotes with re-escaped content, every other
token prints its text verbatim. -/
def origT (t : Tok) : List Char :=
  match t.type with
  | .STRING => '"' :: (escapeQuotes t.value ++ ['"'])
  | _ => t.value

/-- Concatenated `origT` over a token stream. -/
def origL : List TokP → List Char
  | [] => []
  | (t, _, _) :: ts => origT t ++ origL ts

/-- Canonicity invariants the lexer guarantees for its tokens: whitespace
runs are uniform, and keyword/structural tokens carry their literal text. -/
def tokWF (t : Tok) : Bool :=
  match t.type with
  | .SPACES => t.value.all (fun c => c = ' ')
  | .TABS => t.value.all (fun c => c = '\t')
  | .NEWLINES => t.value.all (fun c => c = '\n')
  | .NULL => t.value == ['n', 'u', 'l', 'l']
  | .LBRACE => t.value == ['\x7b']
  | .RBRACE => t.value == ['\x7d']
  | .LBRACKET => t.value == ['[']
  | .RBRACKET => t.value == [']']
  | .COLON => t.value == [':']
  | .COMMA => t.value == [',']
  | _ => true

/-- `tokWF` for every token of a stream. -/
def allWF : List TokP → Bool
  | [] => true
  | (t, _, _) :: ts => tokWF t && allWF ts

/-! ## Parser round-trip lemmas

For each parsing function: a successful parse consumes a prefix of the token
stream and the parsed node serializes to exactly the source text
(`origL`) of the consumed tokens, provided comments are retained and the
tokens satisfy the lexer's canonicity invariants. -/

/-- Round-trip statement for `parseObjLoop`. -/
def POLStmt (cfg : Config) (fuel : Nat) : Prop :=
  ∀ children dict ts nd rest, allWF ts = true →
    parseObjLoop cfg fuel children dict ts = .ok (nd, rest) →
    ∃ pre, ts = pre ++ rest ∧ allWF rest = true ∧
      toAlexson nd = listToAlexson children ++ origL pre

/-- Round-trip statement for `parseArrLoop`. -/
def PALStmt (cfg : Config) (fuel : Nat) : Prop :=
  ∀ children items ts nd rest, allWF ts = true →
    parseArrLoop cfg fuel children items ts = .ok (nd, rest) →
    ∃ pre, ts = pre ++ rest ∧ allWF rest = true ∧
      toAlexson nd = listToAlexson children ++ origL pre

/-- Round-trip statement for `parseObj`. -/
def POStmt (cfg : Config) (fuel : Nat) : Prop :=
  ∀ ts nd rest, allWF ts = true →
    parseObj cfg fuel ts = .ok (nd, rest) →
    ∃ pre, ts = pre ++ rest ∧ allWF rest = true ∧ toAlexson nd = origL pre

/-- Round-trip statement for `parseArray` (callers only invoke it with an
`LBRACKET` at the head). -/
def PAStmt (cfg : Config) (fuel : Nat) : Prop :=
  ∀ ts nd rest, allWF ts = true →
    (∀ t p tl, ts = (t, p) :: tl → t.type = TokenType.LBRACKET) →
    parseArray cfg fuel ts = .ok (nd, rest) →
    ∃ pre, ts = pre ++ rest ∧ allWF rest = true ∧ toAlexson nd = origL pre

/-- Round-trip statement for `parseValue`. -/
def PVStmt (cfg : Config) (fuel : Nat) : Prop :=
  ∀ ts nd rest, allWF ts = true →
    parseValue cfg fuel ts = .ok (nd, rest) →
    ∃ pre, ts = pre ++ rest ∧ allWF rest = true ∧ toAlexson nd = origL pre

/-! ## Lexer lemmas -/

theorem goodBS_tail {c : Char} {rest : List Char} (h : goodBS (c :: rest) = true) :
    goodBS rest = true := by
  match rest with
  | [] => rfl
  | c2 :: tl =>
    rw [goodBS, Bool.and_eq_true] at h
    exact h.2

theorem goodBS_append_right {a b : List Char} (h : goodBS (a ++ b) = true) :
    goodBS b = true := by
  induction a with
  | nil => exact h
  | cons c a ih => exact ih (goodBS_tail h)

theorem scanStringBody_append (cs : List Char) (e : Bool) :
    (scanStringBody cs e).2.1 ++ (scanStringBody cs e).2.2 = cs := by
  induction cs generalizing e with
  | nil => rfl
  | cons c cs ih =>
    rw [scanStringBody]
    split
    · rfl
    · split
      · simpa using ih true
      · simpa using ih false

theorem scanStringBody_rest (cs : List Char) (e : Bool) :
    (scanStringBody cs e).2.2 = [] ∨ ∃ tl, (scanStringBody cs e).2.2 = '"' :: tl := by
  induction cs generalizing e with
  | nil => exact .inl rfl
  | cons c cs ih =>
    rw [scanStringBody]
    split
    · next hq => exact .inr ⟨cs, by rw [hq.1]⟩
    · split
      · simpa using ih true
      · simpa using ih false

theorem scanStringBody_escape :
    ∀ cs : List Char, goodBS cs = true →
      escapeQuotes (scanStringBody cs false).1 = (scanStringBody cs false).2.1
  | [], _ => rfl
  | c :: cs, h => by
    by_cases hq : c = '"'
    · subst hq
      simp [scanStringBody, escapeQuotes]
    · by_cases hb : c = '\\'
      · subst hb
        match cs, h with
        | [], h => simp [goodBS] at h
        | c2 :: cs2, h =>
          simp only [goodBS, Bool.and_eq_true] at h
          have hq2 : c2 = '"' := by simpa using h.1
          subst hq2
          have h2 : goodBS cs2 = true := goodBS_tail h.2
          have ih := scanStringBody_escape cs2 h2
          simp [scanStringBody, escapeQuotes, ih]
      · have ih := scanStringBody_escape cs (goodBS_tail h)
        simp [scanStringBody, hq, hb, escapeQuotes, ih]

theorem all_eq_replicate {l : List Char} {x : Char} (h : l.all (fun c => c = x) = true) :
    l = List.replicate l.length x := by
  apply List.eq_replicate_of_mem
  intro b hb
  exact of_decide_eq_true ((List.all_eq_true.mp h) b hb)

theorem all_takeWhile_self (p : Char → Bool) (l : List Char) :
    (l.takeWhile p).all p = true := by
  rw [List.all_eq_true]
  intro b hb
  exact List.mem_takeWhile_imp hb

theorem mkTok_spec {ty : TokenType} {val consumed rest : List Char} {row col : Nat}
    {t : Tok} {r' c' : Nat} {rest' : List Char}
    (h : mkTok ty val consumed rest row col = .ok (t, r', c', rest')) :
    t = ⟨ty, val⟩ ∧ rest' = rest := by
  simp only [mkTok, Except.ok.injEq, Prod.mk.injEq] at h
  exact ⟨h.1.symm, h.2.2.2.symm⟩

theorem nextToken_spec {c : Char} {cs : List Char} {row col : Nat} {t : Tok}
    {r' c' : Nat} {rest : List Char}
    (h : nextToken c cs row col = .ok (t, r', c', rest)) :
    tokWF t = true ∧
      ∃ pre, c :: cs = pre ++ rest ∧ (goodBS (c :: cs) = true → origT t = pre) := by
  unfold nextToken at h
  by_cases h1 : c = 't' ∧ cs.take 3 = ['r', 'u', 'e']
  · rw [if_pos h1] at h
    obtain ⟨ht, hr⟩ := mkTok_spec h
    subst ht hr
    refine ⟨rfl, ['t', 'r', 'u', 'e'], ?_, fun _ => rfl⟩
    conv_lhs => rw [h1.1, ← List.take_append_drop 3 cs, h1.2]
    rfl
  rw [if_neg h1] at h
  by_cases h2 : c = 'f' ∧ cs.take 4 = ['a', 'l', 's', 'e']
  · rw [if_pos h2] at h
    obtain ⟨ht, hr⟩ := mkTok_spec h
    subst ht hr
    refine ⟨rfl, ['f', 'a', 'l', 's', 'e'], ?_, fun _ => rfl⟩
    conv_lhs => rw [h2.1, ← List.take_append_drop 4 cs, h2.2]
    rfl
  rw [if_neg h2] at h
  by_cases h3 : c = 'n' ∧ cs.take 3 = ['u', 'l', 'l']
  · rw [if_pos h3] at h
    obtain ⟨ht, hr⟩ := mkTok_spec h
    subst ht hr
    refine ⟨rfl, ['n', 'u', 'l', 'l'], ?_, fun _ => rfl⟩
    conv_lhs => rw [h3.1, ← List.take_append_drop 3 cs, h3.2]
    rfl
  rw [if_neg h3] at h
  by_cases h4 : c = '"'
  · rw [if_pos h4] at h
    dsimp only [] at h
    rcases scanStringBody_rest cs false with hr0 | ⟨tl, hr0⟩ <;> rw [hr0] at h
    · exact absurd h (by simp)
    · obtain ⟨ht, hr⟩ := mkTok_spec h
      subst ht hr
      have hsplit := scanStringBody_append cs false
      subst h4
      refine ⟨rfl, '"' :: ((scanStringBody cs false).2.1 ++ ['"']), ?_, fun hg => ?_⟩
      · rw [hr0] at hsplit
        conv_lhs => rw [← hsplit]
        simp
      · have hesc := scanStringBody_escape cs (goodBS_tail hg)
        simp only [origT, hesc]
  rw [if_neg h4] at h
  by_cases h5 : c = '#'
  · rw [if_pos h5] at h
    obtain ⟨ht, hr⟩ := mkTok_spec h
    subst ht hr
    exact ⟨rfl, (c :: cs).takeWhile (fun x => x ≠ '\n'), by
      rw [List.takeWhile_append_dropWhile], fun _ => rfl⟩
  rw [if_neg h5] at h
  by_cases h6 : c = '\n'
  · rw [if_pos h6] at h
    obtain ⟨ht, hr⟩ := mkTok_spec h
    subst ht hr
    refine ⟨?_, (c :: cs).takeWhile (fun x => x = '\n'), by
      rw [List.takeWhile_append_dropWhile], fun _ => rfl⟩
    exact all_takeWhile_self (fun x => x = '\n') (c :: cs)
  rw [if_neg h6] at h
  by_cases h7 : c = '\t'
  · rw [if_pos h7] at h
    obtain ⟨ht, hr⟩ := mkTok_spec h
    subst ht hr
    refine ⟨?_, (c :: cs).takeWhile (fun x => x = '\t'), by
      rw [List.takeWhile_append_dropWhile], fun _ => rfl⟩
    exact all_takeWhile_self (fun x => x = '\t') (c :: cs)
  rw [if_neg h7] at h
  by_cases h8 : c = ' '
  · rw [if_pos h8] at h
    obtain ⟨ht, hr⟩ := mkTok_spec h
    subst ht hr
    refine ⟨?_, (c :: cs).takeWhile (fun x => x = ' '), by
      rw [List.takeWhile_append_dropWhile], fun _ => rfl⟩
    exact all_takeWhile_self (fun x => x = ' ') (c :: cs)
  rw [if_neg h8] at h
  by_cases h9 : c = '\x7b'
  · rw [if_pos h9] at h
    obtain ⟨ht, hr⟩ := mkTok_spec h
    subst ht hr h9
    exact ⟨rfl, ['\x7b'], rfl, fun _ => rfl⟩
  rw [if_neg h9] at h
  by_cases h10 : c = '\x7d'
  · rw [if_pos h10] at h
    obtain ⟨ht, hr⟩ := mkTok_spec h
    subst ht hr h10
    exact ⟨rfl, ['\x7d'], rfl, fun _ => rfl⟩
  rw [if_neg h10] at h
  by_cases h11 : c = '['
  · rw [if_pos h11] at h
    obtain ⟨ht, hr⟩ := mkTok_spec h
    subst ht hr h11
    exact ⟨rfl, ['['], rfl, fun _ => rfl⟩
  rw [if_neg h11] at h
  by_cases h12 : c = ']'
  · rw [if_pos h12] at h
    obtain ⟨ht, hr⟩ := mkTok_spec h
    subst ht hr h12
    exact ⟨rfl, [']'], rfl, fun _ => rfl⟩
  rw [if_neg h12] at h
  by_cases h13 : c = ':'
  · rw [if_pos h13] at h
    obtain ⟨ht, hr⟩ := mkTok_spec h
    subst ht hr h13
    exact ⟨rfl, [':'], rfl, fun _ => rfl⟩
  rw [if_neg h13] at h
  by_cases h14 : c = ','
  · rw [if_pos h14] at h
    obtain ⟨ht, hr⟩ := mkTok_spec h
    subst ht hr h14
    exact ⟨rfl, [','], rfl, fun _ => rfl⟩
  rw [if_neg h14] at h
  by_cases h15 : c.isAlpha || c = '_'
  · rw [if_pos h15] at h
    obtain ⟨ht, hr⟩ := mkTok_spec h
    subst ht hr
    exact ⟨rfl, c :: cs.takeWhile isVarChar, by
      rw [List.cons_append, List.takeWhile_append_dropWhile], fun _ => rfl⟩
  rw [if_neg h15] at h
  by_cases h16 : c.isDigit
  · rw [if_pos h16] at h
    obtain ⟨ht, hr⟩ := mkTok_spec h
    subst ht hr
    exact ⟨rfl, (c :: cs).takeWhile isNumChar, by
      rw [List.takeWhile_append_dropWhile], fun _ => rfl⟩
  rw [if_neg h16] at h
  exact absurd h (by simp)

theorem tokenizeAux_spec (fuel : Nat) :
    ∀ s row col toks, tokenizeAux fuel s row col = .ok toks →
      allWF toks = true ∧ (goodBS s = true → origL toks = s) := by
  induction fuel with
  | zero =>
    intro s row col toks h
    match s with
    | [] =>
      simp only [tokenizeAux, Except.ok.injEq] at h
      subst h
      exact ⟨rfl, fun _ => rfl⟩
    | _ :: _ => simp [tokenizeAux] at h
  | succ fuel ih =>
    intro s row col toks h
    match s with
    | [] =>
      simp only [tokenizeAux, Except.ok.injEq] at h
      subst h
      exact ⟨rfl, fun _ => rfl⟩
    | c :: cs =>
      rw [tokenizeAux] at h
      cases hnt : nextToken c cs row col with
      | error e => rw [hnt] at h; exact absurd h (by simp)
      | ok v =>
        obtain ⟨t, r2, c2, rest⟩ := v
        rw [hnt] at h
        dsimp only [] at h
        cases hrec : tokenizeAux fuel rest r2 c2 with
        | error e => rw [hrec] at h; exact absurd h (by simp)
        | ok ts =>
          rw [hrec] at h
          simp only [Except.ok.injEq] at h
          subst h
          obtain ⟨hwf, pre, hsplit, horig⟩ := nextToken_spec hnt
          obtain ⟨hwfs, hor⟩ := ih rest r2 c2 ts hrec
          refine ⟨by simp [allWF, hwf, hwfs], fun hg => ?_⟩
          have hgr : goodBS rest = true := by
            rw [hsplit] at hg
            exact goodBS_append_right hg
          show origT t ++ origL ts = c :: cs
          rw [hor hgr, horig hg, hsplit]

theorem tokenize_spec {s : List Char} {toks : List TokP} (h : tokenize s = .ok toks) :
    allWF toks = true ∧ (goodBS s = true → origL toks = s) :=
  tokenizeAux_spec _ s 1 0 toks h

/-! ## Serialization utilities -/

theorem listToAlexson_append (a b : List Node) :
    listToAlexson (a ++ b) = listToAlexson a ++ listToAlexson b := by
  induction a with
  | nil => rfl
  | cons x a ih => simp [listToAlexson, ih]

theorem origL_append (a b : List TokP) : origL (a ++ b) = origL a ++ origL b := by
  induction a with
  | nil => rfl
  | cons x a ih =>
    obtain ⟨t, p⟩ := x
    simp [origL, ih]

theorem allWF_cons {t : Tok} {p : Nat × Nat} {ts : List TokP} :
    allWF ((t, p) :: ts) = (tokWF t && allWF ts) := rfl

theorem allWF_suffix : ∀ {a b : List TokP}, allWF (a ++ b) = true → allWF b = true := by
  intro a
  induction a with
  | nil => exact fun h => h
  | cons x a ih =>
    intro b h
    obtain ⟨t, p⟩ := x
    rw [List.cons_append, allWF_cons, Bool.and_eq_true] at h
    exact ih h.2

theorem listToAlexson_replicate {x : Node} {ch : Char} (h : toAlexson x = [ch]) (n : Nat) :
    listToAlexson (List.replicate n x) = List.replicate n ch := by
  induction n with
  | zero => rfl
  | succ n ih => simp [List.replicate_succ, listToAlexson, h, ih]

theorem expandNonJson_orig {cfg : Config} {t : Tok} (hc : cfg.allow_comments = true)
    (hnj : isNonJsonType t.type = true) (hwf : tokWF t = true) :
    listToAlexson (expandNonJson cfg t) = origT t := by
  obtain ⟨ty, v⟩ := t
  cases ty
  case STRING => simp [isNonJsonType] at hnj
  case NUMBER => simp [isNonJsonType] at hnj
  case BOOLEAN => simp [isNonJsonType] at hnj
  case NULL => simp [isNonJsonType] at hnj
  case VARIABLE => simp [isNonJsonType] at hnj
  case LBRACE => simp [isNonJsonType] at hnj
  case RBRACE => simp [isNonJsonType] at hnj
  case LBRACKET => simp [isNonJsonType] at hnj
  case RBRACKET => simp [isNonJsonType] at hnj
  case COLON => simp [isNonJsonType] at hnj
  case COMMA => simp [isNonJsonType] at hnj
  case COMMENT =>
    simp only [expandNonJson, origT, hc]
    simp [listToAlexson, toAlexson]
  case NEWLINES =>
    simp only [expandNonJson, origT]
    rw [listToAlexson_replicate (show toAlexson Node.newline = ['\n'] from rfl) v.length]
    exact (all_eq_replicate hwf).symm
  case SPACES =>
    simp only [expandNonJson, origT]
    rw [listToAlexson_replicate (show toAlexson Node.whitespace = [' '] from rfl) v.length]
    exact (all_eq_replicate hwf).symm
  case TABS =>
    simp only [expandNonJson, origT]
    rw [listToAlexson_replicate (show toAlexson Node.tab = ['\t'] from rfl) v.length]
    exact (all_eq_replicate hwf).symm

theorem parseNonJsonCore_spec {cfg : Config} (hc : cfg.allow_comments = true) :
    ∀ ts ws rest, allWF ts = true → parseNonJsonCore cfg ts = .ok (ws, rest) →
      ∃ pre, ts = pre ++ rest ∧ allWF rest = true ∧ listToAlexson ws = origL pre := by
  intro ts
  induction ts with
  | nil =>
    intro ws rest hwf h
    exact absurd h (by simp [parseNonJsonCore])
  | cons tp ts ih =>
    intro ws rest hwf h
    obtain ⟨t, p⟩ := tp
    rw [allWF_cons, Bool.and_eq_true] at hwf
    rw [parseNonJsonCore] at h
    by_cases hnj : isNonJsonType t.type = true
    · rw [if_pos hnj] at h
      cases hrec : parseNonJsonCore cfg ts with
      | error e => rw [hrec] at h; exact absurd h (by simp)
      | ok r =>
        obtain ⟨ws2, rest2⟩ := r
        rw [hrec] at h
        simp only [Except.ok.injEq, Prod.mk.injEq] at h
        obtain ⟨hws, hrest⟩ := h
        subst hws hrest
        obtain ⟨pre, hsp, hwfr, hser⟩ := ih ws2 rest2 hwf.2 hrec
        refine ⟨(t, p) :: pre, by simp [hsp], hwfr, ?_⟩
        rw [listToAlexson_append]
        show _ = origT t ++ origL pre
        rw [expandNonJson_orig hc hnj hwf.1, hser]
    · rw [if_neg hnj] at h
      simp only [Except.ok.injEq, Prod.mk.injEq] at h
      obtain ⟨hws, hrest⟩ := h
      subst hws
      exact ⟨[], by simp [hrest], by rw [← hrest, allWF_cons, Bool.and_eq_true]; exact hwf, rfl⟩

theorem parseNonJson_spec {cfg : Config} (hc : cfg.allow_comments = true) :
    ∀ ts ws rest, allWF ts = true → parseNonJson cfg ts = .ok (ws, rest) →
      ∃ pre, ts = pre ++ rest ∧ allWF rest = true ∧ listToAlexson ws = origL pre := by
  intro ts ws rest hwf h
  match ts with
  | [] =>
    simp only [parseNonJson, Except.ok.injEq, Prod.mk.injEq] at h
    obtain ⟨hws, hrest⟩ := h
    subst hws
    exact ⟨[], by simp [hrest], by rw [← hrest]; rfl, rfl⟩
  | x :: ts' => exact parseNonJsonCore_spec hc _ ws rest hwf h

theorem POLStmt_zero (cfg : Config) : POLStmt cfg 0 := by
  intro children dict ts nd rest _ h
  exact absurd h (by simp [parseObjLoop])

theorem PALStmt_zero (cfg : Config) : PALStmt cfg 0 := by
  intro children items ts nd rest _ h
  exact absurd h (by simp [parseArrLoop])

theorem POStmt_zero (cfg : Config) : POStmt cfg 0 := by
  intro ts nd rest _ h
  exact absurd h (by simp [parseObj])

theorem PAStmt_zero (cfg : Config) : PAStmt cfg 0 := by
  intro ts nd rest _ _ h
  exact absurd h (by simp [parseArray])

theorem PVStmt_zero (cfg : Config) : PVStmt cfg 0 := by
  intro ts nd rest _ h
  exact absurd h (by simp [parseValue])

theorem tokWF_value {t : Tok} {v : List Char} (hwf : tokWF t = true)
    (h : (match t.type with
          | TokenType.NULL => some (['n', 'u', 'l', 'l'] : List Char)
          | TokenType.LBRACE => some ['\x7b']
          | TokenType.RBRACE => some ['\x7d']
          | TokenType.LBRACKET => some ['[']
          | TokenType.RBRACKET => some [']']
          | TokenType.COLON => some [':']
          | TokenType.COMMA => some [',']
          | _ => none) = some v) :
    t.value = v := by
  obtain ⟨ty, w⟩ := t
  cases ty <;> simp only [] at h
  case STRING => exact Option.noConfusion h
  case NUMBER => exact Option.noConfusion h
  case BOOLEAN => exact Option.noConfusion h
  case VARIABLE => exact Option.noConfusion h
  case COMMENT => exact Option.noConfusion h
  case NEWLINES => exact Option.noConfusion h
  case SPACES => exact Option.noConfusion h
  case TABS => exact Option.noConfusion h
  case NULL =>
    injection h with h
    subst h
    exact eq_of_beq hwf
  case LBRACE =>
    injection h with h
    subst h
    exact eq_of_beq hwf
  case RBRACE =>
    injection h with h
    subst h
    exact eq_of_beq hwf
  case LBRACKET =>
    injection h with h
    subst h
    exact eq_of_beq hwf
  case RBRACKET =>
    injection h with h
    subst h
    exact eq_of_beq hwf
  case COLON =>
    injection h with h
    subst h
    exact eq_of_beq hwf
  case COMMA =>
    injection h with h
    subst h
    exact eq_of_beq hwf

theorem parseObj_step {cfg : Config} {fuel : Nat} (ihOL : POLStmt cfg fuel) :
    POStmt cfg (fuel + 1) := by
  intro ts nd rest hwf h
  match ts with
  | [] => exact absurd h (by simp [parseObj])
  | (t, p) :: rest' =>
    rw [parseObj] at h
    by_cases hb : t.type = TokenType.LBRACE
    · rw [if_neg (not_not_intro hb)] at h
      rw [allWF_cons, Bool.and_eq_true] at hwf
      obtain ⟨pre, hsp, hwfr, hser⟩ := ihOL [.lbrace] [] rest' nd rest hwf.2 h
      refine ⟨(t, p) :: pre, by simp [hsp], hwfr, ?_⟩
      have hv : t.value = ['\x7b'] := tokWF_value hwf.1 (by rw [hb])
      rw [hser]
      show _ = origT t ++ origL pre
      rw [origT, hb, hv]
      rfl
    · rw [if_pos hb] at h
      exact absurd h (by simp)

theorem parseArray_step {cfg : Config} {fuel : Nat} (ihAL : PALStmt cfg fuel) :
    PAStmt cfg (fuel + 1) := by
  intro ts nd rest hwf hhead h
  match ts with
  | [] =>
    rw [parseArray] at h
    match fuel with
    | 0 => exact absurd h (by simp [parseArrLoop])
    | fuel + 1 => exact absurd h (by simp [parseArrLoop, List.drop])
  | (t, p) :: rest' =>
    rw [parseArray] at h
    rw [allWF_cons, Bool.and_eq_true] at hwf
    obtain ⟨pre, hsp, hwfr, hser⟩ := ihAL [.lbracket] [] rest' nd rest hwf.2 h
    refine ⟨(t, p) :: pre, by simp [hsp], hwfr, ?_⟩
    have hb : t.type = TokenType.LBRACKET := hhead t p rest' rfl
    have hv : t.value = ['['] := tokWF_value hwf.1 (by rw [hb])
    rw [hser]
    show _ = origT t ++ origL pre
    rw [origT, hb, hv]
    rfl

theorem parseValue_step {cfg : Config} {fuel : Nat} (ihO : POStmt cfg fuel)
    (ihA : PAStmt cfg fuel) : PVStmt cfg (fuel + 1) := by
  intro ts nd rest hwf h
  match ts with
  | [] => exact absurd h (by simp [parseValue])
  | (t, p) :: rest' =>
    rw [parseValue] at h
    have hwf' := hwf
    rw [allWF_cons, Bool.and_eq_true] at hwf'
    obtain ⟨ty, v⟩ := t
    cases ty
    case STRING =>
      simp only [Except.ok.injEq, Prod.mk.injEq] at h
      obtain ⟨hnd, hrest⟩ := h
      subst hnd hrest
      exact ⟨[(⟨.STRING, v⟩, p)], rfl, hwf'.2, by simp [toAlexson, origT, origL]⟩
    case NUMBER =>
      by_cases hv : pyFloatValid v = true
      · rw [if_pos hv] at h
        simp only [Except.ok.injEq, Prod.mk.injEq] at h
        obtain ⟨hnd, hrest⟩ := h
        subst hnd hrest
        exact ⟨[(⟨.NUMBER, v⟩, p)], rfl, hwf'.2, by simp [toAlexson, origT, origL]⟩
      · rw [if_neg hv] at h
        exact absurd h (by simp)
    case NULL =>
      simp only [Except.ok.injEq, Prod.mk.injEq] at h
      obtain ⟨hnd, hrest⟩ := h
      subst hnd hrest
      refine ⟨[(⟨.NULL, v⟩, p)], rfl, hwf'.2, ?_⟩
      have hv : Tok.value ⟨.NULL, v⟩ = ['n', 'u', 'l', 'l'] := tokWF_value hwf'.1 (by rfl)
      simp only [] at hv
      simp [toAlexson, origT, origL, hv]
    case BOOLEAN =>
      by_cases hv : v = ['t', 'r', 'u', 'e']
      · rw [if_pos hv] at h
        simp only [Except.ok.injEq, Prod.mk.injEq] at h
        obtain ⟨hnd, hrest⟩ := h
        subst hnd hrest
        exact ⟨[(⟨.BOOLEAN, v⟩, p)], rfl, hwf'.2, by simp [toAlexson, origT, origL, hv]⟩
      · rw [if_neg hv] at h
        by_cases hv2 : v = ['f', 'a', 'l', 's', 'e']
        · rw [if_pos hv2] at h
          simp only [Except.ok.injEq, Prod.mk.injEq] at h
          obtain ⟨hnd, hrest⟩ := h
          subst hnd hrest
          exact ⟨[(⟨.BOOLEAN, v⟩, p)], rfl, hwf'.2, by simp [toAlexson, origT, origL, hv2]⟩
        · rw [if_neg hv2] at h
          exact absurd h (by simp)
    case VARIABLE =>
      simp only [Except.ok.injEq, Prod.mk.injEq] at h
      obtain ⟨hnd, hrest⟩ := h
      subst hnd hrest
      exact ⟨[(⟨.VARIABLE, v⟩, p)], rfl, hwf'.2, by simp [toAlexson, origT, origL]⟩
    case LBRACE => exact ihO _ nd rest hwf h
    case LBRACKET =>
      refine ihA _ nd rest hwf ?_ h
      intro t' p' tl he
      cases he
      rfl
    case RBRACE => exact absurd h (by simp)
    case RBRACKET => exact absurd h (by simp)
    case COLON => exact absurd h (by simp)
    case COMMA => exact absurd h (by simp)
    case COMMENT => exact absurd h (by simp)
    case NEWLINES => exact absurd h (by simp)
    case SPACES => exact absurd h (by simp)
    case TABS => exact absurd h (by simp)

theorem parseArrLoop_step {cfg : Config} {fuel : Nat} (hc : cfg.allow_comments = true)
    (ihV : PVStmt cfg fuel) (ihAL : PALStmt cfg fuel) : PALStmt cfg (fuel + 1) := by
  intro children items ts nd rest hwf h
  match ts with
  | [] => exact absurd h (by simp [parseArrLoop])
  | (t, p) :: rest' =>
    rw [parseArrLoop] at h
    by_cases hrb : t.type = TokenType.RBRACKET
    · rw [if_pos hrb] at h
      simp only [Except.ok.injEq, Prod.mk.injEq] at h
      obtain ⟨hnd, hrest⟩ := h
      subst hnd hrest
      rw [allWF_cons, Bool.and_eq_true] at hwf
      refine ⟨[(t, p)], rfl, hwf.2, ?_⟩
      have hv : t.value = [']'] := tokWF_value hwf.1 (by rw [hrb])
      simp [toAlexson, listToAlexson_append, listToAlexson, origL, origT, hrb, hv]
    · rw [if_neg hrb] at h
      cases hnj : parseNonJson cfg ((t, p) :: rest') with
      | error e => rw [hnj] at h; exact absurd h (by simp)
      | ok r1 =>
        obtain ⟨ws1, ts1⟩ := r1
        rw [hnj] at h
        dsimp only [] at h
        cases hval : parseValue cfg fuel ts1 with
        | error e => rw [hval] at h; exact absurd h (by simp)
        | ok r2 =>
          obtain ⟨v, ts2⟩ := r2
          rw [hval] at h
          dsimp only [] at h
          cases hnj2 : parseNonJson cfg ts2 with
          | error e => rw [hnj2] at h; exact absurd h (by simp)
          | ok r3 =>
            obtain ⟨ws2, ts3⟩ := r3
            rw [hnj2] at h
            dsimp only [] at h
            obtain ⟨pre1, hsp1, hwf1, hser1⟩ := parseNonJson_spec hc _ _ _ hwf hnj
            obtain ⟨pre2, hsp2, hwf2, hser2⟩ := ihV _ _ _ hwf1 hval
            obtain ⟨pre3, hsp3, hwf3, hser3⟩ := parseNonJson_spec hc _ _ _ hwf2 hnj2
            cases ts3 with
            | nil => exact absurd h (by simp)
            | cons x ts4 =>
              obtain ⟨cm, cmp⟩ := x
              dsimp only [] at h
              rw [allWF_cons, Bool.and_eq_true] at hwf3
              by_cases hcm : cm.type = TokenType.COMMA
              · rw [if_pos hcm] at h
                obtain ⟨pre4, hsp4, hwf4, hser4⟩ := ihAL _ _ _ _ _ hwf3.2 h
                refine ⟨pre1 ++ pre2 ++ pre3 ++ [(cm, cmp)] ++ pre4, ?_, hwf4, ?_⟩
                · simp [hsp1, hsp2, hsp3, hsp4]
                · rw [hser4]
                  have hcmv : cm.value = [','] := tokWF_value hwf3.1 (by rw [hcm])
                  simp [listToAlexson_append, listToAlexson, origL_append, origL,
                    hser1, hser2, hser3, origT, hcm, hcmv, toAlexson]
              · rw [if_neg hcm] at h
                by_cases hrb2 : cm.type = TokenType.RBRACKET
                · rw [if_neg (not_not_intro hrb2)] at h
                  simp only [Except.ok.injEq, Prod.mk.injEq] at h
                  obtain ⟨hnd, hrest⟩ := h
                  subst hnd hrest
                  refine ⟨pre1 ++ pre2 ++ pre3 ++ [(cm, cmp)], ?_, hwf3.2, ?_⟩
                  · simp [hsp1, hsp2, hsp3]
                  · have hcmv : cm.value = [']'] := tokWF_value hwf3.1 (by rw [hrb2])
                    simp [toAlexson, listToAlexson_append, listToAlexson, origL_append,
                      origL, hser1, hser2, hser3, origT, hrb2, hcmv]
                · rw [if_pos hrb2] at h
                  exact absurd h (by simp)

theorem parseObjLoop_step {cfg : Config} {fuel : Nat} (hc : cfg.allow_comments = true)
    (ihV : PVStmt cfg fuel) (ihOL : POLStmt cfg fuel) : POLStmt cfg (fuel + 1) := by
  intro children dict ts nd rest hwf h
  match ts with
  | [] => exact absurd h (by simp [parseObjLoop])
  | (t, p) :: rest' =>
    rw [parseObjLoop] at h
    by_cases hrb : t.type = TokenType.RBRACE
    · rw [if_pos hrb] at h
      simp only [Except.ok.injEq, Prod.mk.injEq] at h
      obtain ⟨hnd, hrest⟩ := h
      subst hnd hrest
      rw [allWF_cons, Bool.and_eq_true] at hwf
      refine ⟨[(t, p)], rfl, hwf.2, ?_⟩
      have hv : t.value = ['\x7d'] := tokWF_value hwf.1 (by rw [hrb])
      simp [toAlexson, listToAlexson_append, listToAlexson, origL, origT, hrb, hv]
    · rw [if_neg hrb] at h
      cases hnj : parseNonJson cfg ((t, p) :: rest') with
      | error e => rw [hnj] at h; exact absurd h (by simp)
      | ok r1 =>
        obtain ⟨ws1, ts1⟩ := r1
        rw [hnj] at h
        dsimp only [] at h
        obtain ⟨pre1, hsp1, hwf1, hser1⟩ := parseNonJson_spec hc _ _ _ hwf hnj
        cases ts1 with
        | nil => exact absurd h (by simp)
        | cons xk ts2 =>
          obtain ⟨k, kp⟩ := xk
          dsimp only [] at h
          rw [allWF_cons, Bool.and_eq_true] at hwf1
          by_cases hk : k.type = TokenType.STRING
          · rw [if_neg (not_not_intro hk)] at h
            cases hnj2 : parseNonJson cfg ts2 with
            | error e => rw [hnj2] at h; exact absurd h (by simp)
            | ok r2 =>
              obtain ⟨ws2, ts3⟩ := r2
              rw [hnj2] at h
              dsimp only [] at h
              obtain ⟨pre2, hsp2, hwf2, hser2⟩ := parseNonJson_spec hc _ _ _ hwf1.2 hnj2
              cases ts3 with
              | nil => exact absurd h (by simp)
              | cons xc ts4 =>
                obtain ⟨ct, cp⟩ := xc
                dsimp only [] at h
                rw [allWF_cons, Bool.and_eq_true] at hwf2
                by_cases hct : ct.type = TokenType.COLON
                · rw [if_neg (not_not_intro hct)] at h
                  cases hnj3 : parseNonJson cfg ts4 with
                  | error e => rw [hnj3] at h; exact absurd h (by simp)
                  | ok r3 =>
                    obtain ⟨ws3, ts5⟩ := r3
                    rw [hnj3] at h
                    dsimp only [] at h
                    obtain ⟨pre3, hsp3, hwf3, hser3⟩ := parseNonJson_spec hc _ _ _ hwf2.2 hnj3
                    cases hval : parseValue cfg fuel ts5 with
                    | error e => rw [hval] at h; exact absurd h (by simp)
                    | ok rv =>
                      obtain ⟨v, ts6⟩ := rv
                      rw [hval] at h
                      dsimp only [] at h
                      obtain ⟨preV, hspV, hwfV, hserV⟩ := ihV _ _ _ hwf3 hval
                      by_cases hdup : (dictLookup dict k.value).isSome = true
                      · rw [if_pos hdup] at h
                        exact absurd h (by simp)
                      · rw [if_neg hdup] at h
                        cases hnj4 : parseNonJson cfg ts6 with
                        | error e => rw [hnj4] at h; exact absurd h (by simp)
                        | ok r4 =>
                          obtain ⟨ws4, ts7⟩ := r4
                          rw [hnj4] at h
                          dsimp only [] at h
                          obtain ⟨pre4, hsp4, hwf4, hser4⟩ :=
                            parseNonJson_spec hc _ _ _ hwfV hnj4
                          cases ts7 with
                          | nil => exact absurd h (by simp)
                          | cons xm ts8 =>
                            obtain ⟨cm, cmp⟩ := xm
                            dsimp only [] at h
                            rw [allWF_cons, Bool.and_eq_true] at hwf4
                            by_cases hcm : cm.type = TokenType.COMMA
                            · rw [if_pos hcm] at h
                              have hcmv : cm.value = [','] :=
                                tokWF_value hwf4.1 (by rw [hcm])
                              cases hnj5 : parseNonJson cfg ts8 with
                              | error e => rw [hnj5] at h; exact absurd h (by simp)
                              | ok r5 =>
                                obtain ⟨ws5, ts9⟩ := r5
                                rw [hnj5] at h
                                dsimp only [] at h
                                obtain ⟨pre5, hsp5, hwf5, hser5⟩ :=
                                  parseNonJson_spec hc _ _ _ hwf4.2 hnj5
                                by_cases hatc : cfg.allow_trailing_comma = true
                                · rw [if_pos hatc] at h
                                  cases ts9 with
                                  | nil => exact absurd h (by simp)
                                  | cons xx ts10 =>
                                    obtain ⟨x, xp⟩ := xx
                                    dsimp only [] at h
                                    rw [allWF_cons, Bool.and_eq_true] at hwf5
                                    by_cases hx : x.type = TokenType.RBRACE
                                    · rw [if_pos hx] at h
                                      simp only [Except.ok.injEq, Prod.mk.injEq] at h
                                      obtain ⟨hnd, hrest⟩ := h
                                      subst hnd hrest
                                      have hxv : x.value = ['\x7d'] :=
                                        tokWF_value hwf5.1 (by rw [hx])
                                      refine ⟨pre1 ++ [(k, kp)] ++ pre2 ++ [(ct, cp)] ++ pre3 ++
                                        preV ++ pre4 ++ [(cm, cmp)] ++ pre5 ++ [(x, xp)],
                                        ?_, hwf5.2, ?_⟩
                                      · simp [hsp1, hsp2, hsp3, hspV, hsp4, hsp5]
                                      · have hctv : ct.value = [':'] :=
                                          tokWF_value hwf2.1 (by rw [hct])
                                        simp [toAlexson, listToAlexson_append, listToAlexson,
                                          origL_append, origL, hser1, hser2, hser3, hserV,
                                          hser4, hser5, origT, hk, hct, hctv, hcm, hcmv,
                                          hx, hxv]
                                    · rw [if_neg hx] at h
                                      obtain ⟨pre6, hsp6, hwf6, hser6⟩ :=
                                        ihOL _ _ _ _ _ (by rw [allWF_cons,
                                          Bool.and_eq_true]; exact hwf5) h
                                      refine ⟨pre1 ++ [(k, kp)] ++ pre2 ++ [(ct, cp)] ++ pre3 ++
                                        preV ++ pre4 ++ [(cm, cmp)] ++ pre5 ++ pre6,
                                        ?_, hwf6, ?_⟩
                                      · simp [hsp1, hsp2, hsp3, hspV, hsp4, hsp5, hsp6]
                                      · have hctv : ct.value = [':'] :=
                                          tokWF_value hwf2.1 (by rw [hct])
                                        rw [hser6]
                                        simp [toAlexson, listToAlexson_append, listToAlexson,
                                          origL_append, origL, hser1, hser2, hser3, hserV,
                                          hser4, hser5, origT, hk, hct, hctv, hcm, hcmv]
                                · rw [if_neg hatc] at h
                                  obtain ⟨pre6, hsp6, hwf6, hser6⟩ := ihOL _ _ _ _ _ hwf5 h
                                  refine ⟨pre1 ++ [(k, kp)] ++ pre2 ++ [(ct, cp)] ++ pre3 ++
                                    preV ++ pre4 ++ [(cm, cmp)] ++ pre5 ++ pre6,
                                    ?_, hwf6, ?_⟩
                                  · simp [hsp1, hsp2, hsp3, hspV, hsp4, hsp5, hsp6]
                                  · have hctv : ct.value = [':'] :=
                                      tokWF_value hwf2.1 (by rw [hct])
                                    rw [hser6]
                                    simp [toAlexson, listToAlexson_append, listToAlexson,
                                      origL_append, origL, hser1, hser2, hser3, hserV,
                                      hser4, hser5, origT, hk, hct, hctv, hcm, hcmv]
                            · rw [if_neg hcm] at h
                              by_cases hrb2 : cm.type = TokenType.RBRACE
                              · rw [if_neg (not_not_intro hrb2)] at h
                                simp only [Except.ok.injEq, Prod.mk.injEq] at h
                                obtain ⟨hnd, hrest⟩ := h
                                subst hnd hrest
                                have hcmv : cm.value = ['\x7d'] :=
                                  tokWF_value hwf4.1 (by rw [hrb2])
                                refine ⟨pre1 ++ [(k, kp)] ++ pre2 ++ [(ct, cp)] ++ pre3 ++
                                  preV ++ pre4 ++ [(cm, cmp)], ?_, hwf4.2, ?_⟩
                                · simp [hsp1, hsp2, hsp3, hspV, hsp4]
                                · have hctv : ct.value = [':'] :=
                                    tokWF_value hwf2.1 (by rw [hct])
                                  simp [toAlexson, listToAlexson_append, listToAlexson,
                                    origL_append, origL, hser1, hser2, hser3, hserV, hser4,
                                    origT, hk, hct, hctv, hrb2, hcmv]
                              · rw [if_pos hrb2] at h
                                exact absurd h (by simp)
                · rw [if_pos hct] at h
                  exact absurd h (by simp)
          · rw [if_pos hk] at h
            exact absurd h (by simp)

theorem parser_spec (cfg : Config) (hc : cfg.allow_comments = true) :
    ∀ fuel, POLStmt cfg fuel ∧ PALStmt cfg fuel ∧ POStmt cfg fuel ∧ PAStmt cfg fuel ∧
      PVStmt cfg fuel := by
  intro fuel
  induction fuel with
  | zero =>
    exact ⟨POLStmt_zero cfg, PALStmt_zero cfg, POStmt_zero cfg, PAStmt_zero cfg,
      PVStmt_zero cfg⟩
  | succ fuel ih =>
    obtain ⟨ihOL, ihAL, ihO, ihA, ihV⟩ := ih
    exact ⟨parseObjLoop_step hc ihV ihOL, parseArrLoop_step hc ihV ihAL,
      parseObj_step ihOL, parseArray_step ihAL, parseValue_step ihO ihA⟩

theorem parseRoot_spec {cfg : Config} (hc : cfg.allow_comments = true)
    {fuel : Nat} {ts : List TokP} {root : Node}
    (hwf : allWF ts = true) (h : parseRoot cfg fuel ts = .ok root) :
    toAlexson root = origL ts := by
  match ts with
  | [] =>
    simp only [parseRoot, Except.ok.injEq] at h
    subst h
    rfl
  | x :: ts' =>
    rw [parseRoot] at h
    cases hnj : parseNonJson cfg (x :: ts') with
    | error e => rw [hnj] at h; exact absurd h (by simp)
    | ok r1 =>
      obtain ⟨ws1, ts1⟩ := r1
      rw [hnj] at h
      dsimp only [] at h
      obtain ⟨pre1, hsp1, hwf1, hser1⟩ := parseNonJson_spec hc _ _ _ hwf hnj
      cases ts1 with
      | nil =>
        simp only [Except.ok.injEq] at h
        subst h
        show listToAlexson ws1 = origL (x :: ts')
        rw [hser1, hsp1]
        simp
      | cons y ts2 =>
        obtain ⟨t, p⟩ := y
        dsimp only [] at h
        by_cases hbr : t.type = TokenType.LBRACE
        · rw [if_pos hbr] at h
          cases hobj : parseObj cfg fuel ((t, p) :: ts2) with
          | error e => rw [hobj] at h; exact absurd h (by simp)
          | ok r2 =>
            obtain ⟨o, ts3⟩ := r2
            rw [hobj] at h
            dsimp only [] at h
            obtain ⟨preO, hspO, hwfO, hserO⟩ :=
              ((parser_spec cfg hc fuel).2.2.1) _ _ _ hwf1 hobj
            cases hnj2 : parseNonJson cfg ts3 with
            | error e => rw [hnj2] at h; exact absurd h (by simp)
            | ok r3 =>
              obtain ⟨ws2, ts4⟩ := r3
              rw [hnj2] at h
              dsimp only [] at h
              obtain ⟨pre2, hsp2, hwf2, hser2⟩ := parseNonJson_spec hc _ _ _ hwfO hnj2
              cases ts4 with
              | nil =>
                simp only [Except.ok.injEq] at h
                subst h
                show listToAlexson (ws1 ++ [o] ++ ws2) = origL (x :: ts')
                rw [hsp1, hspO, hsp2]
                simp [listToAlexson_append, listToAlexson, origL_append, origL,
                  hser1, hserO, hser2]
              | cons z ts5 => exact absurd h (by simp)
        · rw [if_neg hbr] at h
          by_cases hbk : t.type = TokenType.LBRACKET
          · rw [if_pos hbk] at h
            cases harr : parseArray cfg fuel ((t, p) :: ts2) with
            | error e => rw [harr] at h; exact absurd h (by simp)
            | ok r2 =>
              obtain ⟨o, ts3⟩ := r2
              rw [harr] at h
              dsimp only [] at h
              obtain ⟨preO, hspO, hwfO, hserO⟩ :=
                ((parser_spec cfg hc fuel).2.2.2.1) _ _ _ hwf1
                  (by intro t' p' tl he; cases he; exact hbk) harr
              cases hnj2 : parseNonJson cfg ts3 with
              | error e => rw [hnj2] at h; exact absurd h (by simp)
              | ok r3 =>
                obtain ⟨ws2, ts4⟩ := r3
                rw [hnj2] at h
                dsimp only [] at h
                obtain ⟨pre2, hsp2, hwf2, hser2⟩ := parseNonJson_spec hc _ _ _ hwfO hnj2
                cases ts4 with
                | nil =>
                  simp only [Except.ok.injEq] at h
                  subst h
                  show listToAlexson (ws1 ++ [o] ++ ws2) = origL (x :: ts')
                  rw [hsp1, hspO, hsp2]
                  simp [listToAlexson_append, listToAlexson, origL_append, origL,
                    hser1, hserO, hser2]
                | cons z ts5 => exact absurd h (by simp)
          · rw [if_neg hbk] at h
            exact absurd h (by simp)

/-- C1 (amended): round-trip identity — for every input text accepted by
the parser (with comment retention enabled) in which each backslash is
immediately followed by a double-quote, serializing the unmodified tree
produced by parsing reproduces the original text exactly, including
whitespace layout, comment text, and each number's original textual form. -/
theorem C1_round_trip {cfg : Config} {s : List Char} {root : Node}
    (hc : cfg.allow_comments = true) (hg : goodBS s = true)
    (h : parseAlexson cfg s = .ok root) :
    toAlexson root = s := by
  unfold parseAlexson at h
  cases htk : tokenize s with
  | error e => rw [htk] at h; exact absurd h (by simp)
  | ok ts =>
    rw [htk] at h
    dsimp only [] at h
    obtain ⟨hwf, horig⟩ := tokenize_spec htk
    rw [parseRoot_spec hc hwf h, horig hg]

/-! ## The `1e-6` tolerance, exactly -/

theorem natCast_abs_sub (x y : ℕ) :
    |(x : ℚ) - (y : ℚ)| = ((max x y - min x y : ℕ) : ℚ) := by
  rcases le_total x y with hxy | hxy
  · rw [max_eq_right hxy, min_eq_left hxy, Nat.cast_sub hxy, abs_sub_comm,
      abs_of_nonneg (sub_nonneg.mpr (Nat.cast_le.mpr hxy))]
  · rw [max_eq_left hxy, min_eq_right hxy, Nat.cast_sub hxy,
      abs_of_nonneg (sub_nonneg.mpr (Nat.cast_le.mpr hxy))]

/-- The integer cross-multiplication test `numClose` computes exactly the
rational tolerance test `|a - b| < 1e-6` of `Number.__eq__`. -/
theorem numClose_iff_toRat (a b : DecVal) :
    numClose a b = true ↔ |a.toRat - b.toRat| < 1 / 1000000 := by
  unfold numClose DecVal.toRat natAbsDiff
  rw [decide_eq_true_iff]
  have h1 : ((10 : ℚ) ^ a.scale) ≠ 0 := by positivity
  have h2 : ((10 : ℚ) ^ b.scale) ≠ 0 := by positivity
  rw [div_sub_div _ _ h1 h2, abs_div,
    abs_of_pos (show (0 : ℚ) < 10 ^ a.scale * 10 ^ b.scale by positivity),
    div_lt_div_iff₀ (show (0 : ℚ) < 10 ^ a.scale * 10 ^ b.scale by positivity)
      (show (0 : ℚ) < 1000000 by norm_num),
    show ((a.mant : ℚ) * 10 ^ b.scale) = ((a.mant * 10 ^ b.scale : ℕ) : ℚ) by push_cast; ring,
    show ((10 : ℚ) ^ a.scale * b.mant) = ((b.mant * 10 ^ a.scale : ℕ) : ℚ) by push_cast; ring,
    natCast_abs_sub, one_mul, ← pow_add]
  constructor
  · intro hlt
    exact_mod_cast hlt
  · intro hlt
    exact_mod_cast hlt

/-! ## Array mutation lemmas (for C4) -/

theorem get_q_set_self : ∀ (l : List Node) (n : Nat) (v : Node), n < l.length →
    (l.set n v).get? n = some v := by
  intro l
  induction l with
  | nil =>
    intro n v h
    simp at h
  | cons x l ih =>
    intro n v h
    cases n with
    | zero => rfl
    | succ n => exact ih n v (by simpa using h)

/-- Reading back the index just written by `pyListSet` yields the new node
(both functions resolve a negative index the same way and `set` keeps the
length). -/
theorem pyListGet_set {l l2 : List Node} {i : Int} {v : Node}
    (h : pyListSet l i v = some l2) : pyListGet l2 i = some v := by
  unfold pyListSet at h
  unfold pyListGet
  by_cases h1 : 0 ≤ i ∧ i < (l.length : Int)
  · rw [if_pos h1] at h
    injection h with h
    subst h
    rw [if_pos (by rw [List.length_set]; exact h1)]
    exact get_q_set_self l i.toNat v (by omega)
  · rw [if_neg h1] at h
    by_cases h2 : -(l.length : Int) ≤ i ∧ i < 0
    · rw [if_pos h2] at h
      injection h with h
      subst h
      rw [if_neg (by rw [List.length_set]; exact h1),
        if_pos (by rw [List.length_set]; exact h2), List.length_set]
      exact get_q_set_self l (l.length - (-i).toNat) v (by omega)
    · rw [if_neg h2] at h
      exact absurd h (by simp)

/-- Replacing the primary container with another `BlockNode` makes the new
node the primary container. -/
theorem getPrimaryObj_replacePrimary : ∀ (cs : List Node) {old : Node} (b : Node),
    getPrimaryObj cs = some old → isBlock b = true →
    getPrimaryObj (replacePrimary cs b) = some b := by
  intro cs
  induction cs with
  | nil =>
    intro old b h _
    simp [getPrimaryObj] at h
  | cons c cs ih =>
    intro old b h hb
    rw [getPrimaryObj] at h
    rw [replacePrimary]
    by_cases hc : isBlock c = true
    · rw [if_pos hc]
      rw [getPrimaryObj, if_pos hb]
    · rw [if_neg hc] at h
      rw [if_neg hc, getPrimaryObj, if_neg hc]
      exact ih b h hb

/-- Replacing the primary container with a node of equal serialization
leaves the serialization of the child list unchanged. -/
theorem replacePrimary_toAlexson : ∀ (cs : List Node) {old : Node} (b : Node),
    getPrimaryObj cs = some old → toAlexson b = toAlexson old →
    listToAlexson (replacePrimary cs b) = listToAlexson cs := by
  intro cs
  induction cs with
  | nil =>
    intro old b h _
    simp [getPrimaryObj] at h
  | cons c cs ih =>
    intro old b h hser
    rw [getPrimaryObj] at h
    rw [replacePrimary]
    by_cases hc : isBlock c = true
    · rw [if_pos hc] at h ⊢
      injection h with h
      subst h
      simp [listToAlexson, hser]
    · rw [if_neg hc] at h
      rw [if_neg hc]
      simp [listToAlexson, ih b h hser]

/-! ## Claim theorems -/

/-- C1 (witness): the round-trip theorem instantiated at the concrete
accepted input `{"a":1}`. -/
theorem C1_round_trip_witness :
    (Config.mk false true).allow_comments = true ∧
    goodBS (("\x7b\"a\":1\x7d").data) = true ∧
    parseAlexson ⟨false, true⟩ (("\x7b\"a\":1\x7d").data) =
      .ok (Node.root [Node.obj [Node.lbrace, Node.str ['a'], Node.colon,
          Node.num ⟨1, 0⟩ ['1'], Node.rbrace]
          [(['a'], Node.str ['a'], Node.num ⟨1, 0⟩ ['1'])]]) ∧
    toAlexson (Node.root [Node.obj [Node.lbrace, Node.str ['a'], Node.colon,
          Node.num ⟨1, 0⟩ ['1'], Node.rbrace]
          [(['a'], Node.str ['a'], Node.num ⟨1, 0⟩ ['1'])]]) = ("\x7b\"a\":1\x7d").data := by
  refine ⟨rfl, by decide, rfl, ?_⟩
  exact @C1_round_trip ⟨false, true⟩ _ _ rfl (by decide) rfl

/-- C1 (counterexample): the input `{"k":"a\b"}` is accepted by the parser,
but serializing the parse result yields `{"k":"ab"}` — the scanner drops the
backslash — so `serialize(parse(T)) = T` fails for this accepted `T`. -/
theorem C1_counterexample :
    serializeParsed ⟨false, true⟩ ("\x7b\"k\":\"a\\b\"\x7d").data =
      some (("\x7b\"k\":\"ab\"\x7d").data) ∧
    ("\x7b\"k\":\"ab\"\x7d").data ≠ ("\x7b\"k\":\"a\\b\"\x7d").data :=
  ⟨rfl, by decide⟩

/-- C2: parsing `{"a":1,}` (and `[1,]`) succeeds both with
`allow_trailing_comma` disabled and enabled — the object loop also exits
when the token after a consumed comma is the closer, so the configuration
flag has no effect on acceptance and no parse error is raised at the `}`. -/
theorem C2_trailing_comma_accepted :
    parseOk ⟨false, true⟩ ("\x7b\"a\":1,\x7d").data = true ∧
    parseOk ⟨true, true⟩ ("\x7b\"a\":1,\x7d").data = true ∧
    parseOk ⟨false, true⟩ ("[1,]").data = true ∧
    parseOk ⟨true, true⟩ ("[1,]").data = true :=
  ⟨rfl, rfl, rfl, rfl⟩

/-- C3: in the object parsed from `{"a":1,"b":1}`, setting key `b` to
`Number("2")` updates the key index for `b`, but `children.index` (Python
`==`-equality search) replaces the first child equal to the old value — the
value of `a` — so re-serializing yields `{"a":2,"b":1}`: the substring that
changed is `a`'s value span, not `b`'s. -/
theorem C3_mutation_wrong_span :
    (match parseAlexson ⟨false, true⟩ ("\x7b\"a\":1,\"b\":1\x7d").data with
     | .ok r =>
       match rootSetKey r ("b").data (numberOfText ("2").data) with
       | .ok r2 => some (toAlexson r2, rootGetKey r2 ("b").data)
       | .error _ => none
     | .error _ => none) =
    some (("\x7b\"a\":2,\"b\":1\x7d").data, .ok (numberOfText ("2").data)) := rfl

/-- C4 (counterexample): after parsing `[1, 2]` and performing
`set(0, Number("9"))`, re-serializing still yields `[1, 2]` — the
replacement does *not* appear in the `serialize()` output, because
`Array.__setitem__` writes only the item index. -/
theorem C4_counterexample :
    (match parseAlexson ⟨false, true⟩ ("[1, 2]").data with
     | .ok r => (rootSetIdx r 0 (numberOfText ("9").data)).map toAlexson
     | .error _ => .error .typeErr) = .ok (("[1, 2]").data) := rfl

/-- C4 (amended): for every parsed tree, index `i` and node `v` for which
`set(i, v)` succeeds (the primary container is an array and `i` a valid
item index), the mutation replaces the node in the item index only: the
primary array keeps its children sequence — every surrounding structural
and formatting node included — unchanged, `get(i)` afterwards returns the
new node, and the `serialize()` output is byte-for-byte unchanged. -/
theorem C4_array_set_index_only (cfg : Config) (s : List Char) (r r2 : Node)
    (i : Int) (v : Node)
    (hp : parseAlexson cfg s = .ok r) (hs : rootSetIdx r i v = .ok r2) :
    rootGetIdx r2 i = .ok v ∧ toAlexson r2 = toAlexson r ∧
    ∃ cs ch items items2, r = .root cs ∧
      getPrimaryObj cs = some (.arr ch items) ∧
      pyListSet items i v = some items2 ∧
      r2 = .root (replacePrimary cs (.arr ch items2)) := by
  cases r
  case root cs =>
    rw [rootSetIdx] at hs
    cases hprim : getPrimaryObj cs with
    | none =>
      rw [hprim] at hs
      exact absurd hs (by simp)
    | some prim =>
      rw [hprim] at hs
      cases prim
      case arr ch items =>
        dsimp only [] at hs
        cases hset : pyListSet items i v with
        | none =>
          rw [hset] at hs
          exact absurd hs (by simp)
        | some items2 =>
          rw [hset] at hs
          dsimp only [] at hs
          injection hs with hs
          subst hs
          refine ⟨?_, ?_, cs, ch, items, items2, rfl, hprim, hset, rfl⟩
          · rw [rootGetIdx, getPrimaryObj_replacePrimary cs (.arr ch items2) hprim rfl]
            dsimp only []
            rw [pyListGet_set hset]
          · show toAlexson (.root (replacePrimary cs (.arr ch items2))) = toAlexson (.root cs)
            simp only [toAlexson]
            exact replacePrimary_toAlexson cs (.arr ch items2) hprim rfl
      all_goals exact absurd hs (by simp)
  all_goals exact absurd hs (by simp [rootSetIdx])

set_option maxHeartbeats 1600000 in
/-- C5: parsing `{"a":1,"a":2}` fails, under every configuration, with a
parse error naming key `a`; the first occurrence parses fine and it is the
second occurrence that is rejected (the error is raised after the second
member's value, at the recorded position of the following token).  Keys are
compared by exact string equality: a distinct key (`"A"`) and a repeated key
further away (`{"a":1,"b":2,"a":3}`) behave accordingly. -/
theorem C5_duplicate_key (cfg : Config) :
    parseAlexson cfg ("\x7b\"a\":1,\"a\":2\x7d").data =
      .error (.parseExc "Duplicate key a" 1 13) ∧
    parseAlexson cfg ("\x7b\"a\":1,\"b\":2,\"a\":3\x7d").data =
      .error (.parseExc "Duplicate key a" 1 19) ∧
    parseOk cfg ("\x7b\"a\":1,\"A\":2\x7d").data = true := by
  obtain ⟨tc, ac⟩ := cfg
  cases tc <;> cases ac <;> exact ⟨rfl, rfl, rfl⟩

/-- C6 (counterexample): `{ }` — an object whose brackets enclose only
whitespace — does not parse into an empty container; it raises the parse
error `Unexpected token RBRACE` at the `}`. -/
theorem C6_counterexample :
    parseAlexson ⟨false, true⟩ ("\x7b \x7d").data =
      .error (.parseExc "Unexpected token RBRACE" 1 3) := rfl

set_option maxHeartbeats 1600000 in
/-- C6 (amended): `{}` and `[]` with *nothing* between the brackets parse
into empty containers, but brackets enclosing only formatting tokens are a
parse error: the member/item loop is entered and the closer is rejected
where a key or value was expected (`{ }` fails with
`Unexpected token RBRACE`, `[ ]` with `Unexpected token RBRACKET`), under
every configuration. -/
theorem C6_empty_containers (cfg : Config) :
    parseAlexson cfg ("\x7b\x7d").data =
      .ok (.root [.obj [.lbrace, .rbrace] []]) ∧
    parseAlexson cfg ("[]").data =
      .ok (.root [.arr [.lbracket, .rbracket] []]) ∧
    parseAlexson cfg ("\x7b \x7d").data =
      .error (.parseExc "Unexpected token RBRACE" 1 3) ∧
    parseAlexson cfg ("[ ]").data =
      .error (.parseExc "Unexpected token RBRACKET" 1 3) := by
  obtain ⟨tc, ac⟩ := cfg
  cases tc <;> cases ac <;> exact ⟨rfl, rfl, rfl, rfl⟩

set_option maxHeartbeats 1600000 in
/-- C7: two malformed inputs that are *not* rejected with a positioned
`AlexsonLexicalError`/`AlexsonParserException`: the input `{` that ends
mid-object makes `_parse_obj`'s loop condition evaluate
`self.current().type` on `None` (an unpositioned `AttributeError`), and the
stray trailing content in `{}x` trips the blind `assert self.current() is
None` (an unpositioned `AssertionError`), under every configuration. -/
theorem C7_internal_failures (cfg : Config) :
    parseAlexson cfg ("\x7b").data = .error .noneType ∧
    parseAlexson cfg ("\x7b\x7dx").data = .error .assertFail := by
  obtain ⟨tc, ac⟩ := cfg
  cases tc <;> cases ac <;> exact ⟨rfl, rfl⟩

/-- C8: `Number("2.00")` and `Number("2")` are semantically equal — two
`Number` nodes are equal iff their parsed values differ by less than `1e-6`
— while each serializes its stored original text verbatim (`"2.00"` vs
`"2"`), not a re-formatted version of the parsed value. -/
theorem C8_number_tolerance :
    nodeEq (numberOfText ("2.00").data) (numberOfText ("2").data) = true ∧
    toAlexson (numberOfText ("2.00").data) = ("2.00").data ∧
    toAlexson (numberOfText ("2").data) = ("2").data ∧
    (∀ (a b : DecVal) (o1 o2 : List Char),
      nodeEq (.num a o1) (.num b o2) = true ↔
        |a.toRat - b.toRat| < 1 / 1000000) := by
  refine ⟨by decide, rfl, rfl, ?_⟩
  intro a b o1 o2
  show numClose a b = true ↔ _
  exact numClose_iff_toRat a b

set_option maxHeartbeats 1600000 in
/-- C9: parsing `{"a":1} # note\n` does not retain (or drop) the comment —
with comments enabled *or* disabled the parse crashes: the trailing
`_parse_non_json` loop consumes the space, comment and newline tokens and
then evaluates `self.current().type` on `None`, raising an unpositioned
`AttributeError` instead of returning a tree. -/
theorem C9_trailing_comment_crash (tc : Bool) :
    parseAlexson ⟨tc, true⟩ ("\x7b\"a\":1\x7d # note\n").data = .error .noneType ∧
    parseAlexson ⟨tc, false⟩ ("\x7b\"a\":1\x7d # note\n").data = .error .noneType := by
  cases tc <;> exact ⟨rfl, rfl⟩

set_option maxHeartbeats 1600000 in
/-- C10: parsing a non-empty input consisting solely of whitespace or
comments does not return a `Root` of formatting nodes — `_parse_non_json`
consumes all tokens and then evaluates `self.current().type` on `None`,
raising an unpositioned `AttributeError`, under every configuration. -/
theorem C10_whitespace_only_crash (cfg : Config) :
    parseAlexson cfg (" ").data = .error .noneType ∧
    parseAlexson cfg ("# c\n").data = .error .noneType := by
  obtain ⟨tc, ac⟩ := cfg
  cases tc <;> cases ac <;> exact ⟨rfl, rfl⟩

/-- C4 (witness): the array-set theorem instantiated at the parsed `[1, 2]`
with `set(0, Number("9"))`: the item index reflects the new node while the
serialization stays `[1, 2]`. -/
theorem C4_array_set_index_only_witness :
    parseAlexson ⟨false, true⟩ ("[1, 2]").data =
      .ok (Node.root [Node.arr
        [Node.lbracket, numberOfText ("1").data, Node.comma, Node.whitespace,
         numberOfText ("2").data, Node.rbracket]
        [numberOfText ("1").data, numberOfText ("2").data]]) ∧
    rootSetIdx (Node.root [Node.arr
        [Node.lbracket, numberOfText ("1").data, Node.comma, Node.whitespace,
         numberOfText ("2").data, Node.rbracket]
        [numberOfText ("1").data, numberOfText ("2").data]]) 0 (numberOfText ("9").data) =
      .ok (Node.root [Node.arr
        [Node.lbracket, numberOfText ("1").data, Node.comma, Node.whitespace,
         numberOfText ("2").data, Node.rbracket]
        [numberOfText ("9").data, numberOfText ("2").data]]) ∧
    rootGetIdx (Node.root [Node.arr
        [Node.lbracket, numberOfText ("1").data, Node.comma, Node.whitespace,
         numberOfText ("2").data, Node.rbracket]
        [numberOfText ("9").data, numberOfText ("2").data]]) 0 =
      .ok (numberOfText ("9").data) ∧
    toAlexson (Node.root [Node.arr
        [Node.lbracket, numberOfText ("1").data, Node.comma, Node.whitespace,
         numberOfText ("2").data, Node.rbracket]
        [numberOfText ("9").data, numberOfText ("2").data]]) = ("[1, 2]").data := by
  refine ⟨rfl, rfl, ?_, ?_⟩
  · exact (@C4_array_set_index_only ⟨false, true⟩ (("[1, 2]").data) _ _ 0
      (numberOfText ("9").data) rfl rfl).1
  · exact ((@C4_array_set_index_only ⟨false, true⟩ (("[1, 2]").data) _ _ 0
      (numberOfText ("9").data) rfl rfl).2.1).trans rfl

/-- C5 (witness): the duplicate-key rejection at a concrete configuration. -/
theorem C5_duplicate_key_witness :
    parseAlexson ⟨false, true⟩ ("\x7b\"a\":1,\"a\":2\x7d").data =
      .error (.parseExc "Duplicate key a" 1 13) :=
  (C5_duplicate_key ⟨false, true⟩).1

/-- C6 (witness): the empty-container behaviour at a concrete
configuration. -/
theorem C6_empty_containers_witness :
    parseAlexson ⟨false, true⟩ ("\x7b\x7d").data =
      .ok (.root [.obj [.lbrace, .rbrace] []]) ∧
    parseAlexson ⟨false, true⟩ ("\x7b \x7d").data =
      .error (.parseExc "Unexpected token RBRACE" 1 3) :=
  ⟨(C6_empty_containers ⟨false, true⟩).1, (C6_empty_containers ⟨false, true⟩).2.2.1⟩

/-- C7 (witness): the internal failures at a concrete configuration. -/
theorem C7_internal_failures_witness :
    parseAlexson ⟨false, true⟩ ("\x7b").data = .error .noneType ∧
    parseAlexson ⟨false, true⟩ ("\x7b\x7dx").data = .error .assertFail :=
  C7_internal_failures ⟨false, true⟩

/-- C9 (witness): the trailing-comment crash at a concrete configuration. -/
theorem C9_trailing_comment_crash_witness :
    parseAlexson ⟨false, true⟩ ("\x7b\"a\":1\x7d # note\n").data = .error .noneType :=
  (C9_trailing_comment_crash false).1

/-- C10 (witness): the whitespace-only crash at a concrete configuration. -/
theorem C10_whitespace_only_crash_witness :
    parseAlexson ⟨false, true⟩ (" ").data = .error .noneType :=
  (C10_whitespace_only_crash ⟨false, true⟩).1

end Alexson


